import Mathlib

/-!
Verification development for the carbonapi expression parser
(`pkg/parser/parser.go`) and the carbonzipper fan-in error reconciler and
HTTP handlers (`app/carbonzipper/http_handlers.go`).

Go strings are modelled as lists of bytes (`Str`), matching Go's byte-level
string indexing and slicing.  The stdlib pieces the source uses are modelled
explicitly below:

* `unicode.IsSpace(rune(b))` applied to a single byte: `isSpaceByte`
  (exact: the code points below 0x100 with the White_Space property);
* `strings.TrimLeftFunc(s, unicode.IsSpace)`: `trimLeftSpace`
  (exact for ASCII whitespace and the UTF-8 encodings of the
  Unicode White_Space code points);
* `utf8.DecodeRuneInString`: `decodeRune` (standard UTF-8 decoding with
  RuneError on empty/invalid input);
* `unicode.IsLetter`: `isLetterRune`, modelled exactly for code points
  below 0x100 (ASCII plus Latin-1 letters); code points at or above
  0x100 are treated as non-letters.  The package variable
  `parser.RangeTables` is modelled with its source default, the empty
  list, so such code points never continue a metric name either;
* `strconv.ParseFloat`: `goParseFloat`, which accepts exactly the Go
  decimal floating-point literal syntax reachable from `parseConst`'s
  character set and rejects literals that overflow float64; the numeric
  value is kept as an exact rational (`GoFloat`, a normalized fraction;
  Go rounds it to the nearest float64, which is irrelevant to the
  structural claims proved here);
* `fmt.Sprint` on a float64: `goFormatFloat`, Go's `%v` shortest-form
  formatting rules applied to the exact rational value.
-/

/-- Byte string: a Go string as its list of bytes. -/
abbrev Str := List Nat

/-- UTF-8 encoding of one character, as byte values. -/
def utf8Bytes (c : Char) : List Nat :=
  let n := c.toNat
  if n < 0x80 then [n]
  else if n < 0x800 then [0xC0 + n / 64, 0x80 + n % 64]
  else if n < 0x10000 then [0xE0 + n / 4096, 0x80 + (n / 64) % 64, 0x80 + n % 64]
  else [0xF0 + n / 262144, 0x80 + (n / 4096) % 64, 0x80 + (n / 64) % 64, 0x80 + n % 64]

/-- A Lean string literal as a Go byte string. -/
def goStr (s : String) : Str := s.data.flatMap utf8Bytes

/-- Port of `IsNameChar` (parser.go): bytes legal in a metric name. -/
def isNameChar (b : Nat) : Bool :=
  (97 ≤ b && b ≤ 122) || (65 ≤ b && b ≤ 90) || (48 ≤ b && b ≤ 57) ||
  b = 46 || b = 95 || b = 45 || b = 42 ||
  b = 63 || b = 58 || b = 94 || b = 36 ||
  b = 60 || b = 62 || b = 38 || b = 35

/-- Port of `isDigit` (parser.go). -/
def isDigitByte (b : Nat) : Bool := 48 ≤ b && b ≤ 57

/-- Go `unicode.IsSpace(rune(b))` for a single byte `b`: the byte is
zero-extended to a code point, so exactly the White_Space code points
below 0x100 qualify. -/
def isSpaceByte (b : Nat) : Bool :=
  b = 9 || b = 10 || b = 11 || b = 12 || b = 13 || b = 32 || b = 133 || b = 160

/-- Go `unicode.IsSpace` on a full code point (the White_Space table). -/
def isSpaceRune (r : Nat) : Bool :=
  r = 9 || r = 10 || r = 11 || r = 12 || r = 13 || r = 32 ||
  r = 0x85 || r = 0xA0 || r = 0x1680 ||
  (0x2000 ≤ r && r ≤ 0x200A) ||
  r = 0x2028 || r = 0x2029 || r = 0x202F || r = 0x205F || r = 0x3000

/-- Go `unicode.IsLetter`, modelled exactly below 0x100 (ASCII letters and
the Latin-1 letters 0xAA, 0xB5, 0xBA, 0xC0-0xD6, 0xD8-0xF6, 0xF8-0xFF);
code points at or above 0x100 are treated as non-letters (see module
docstring). -/
def isLetterRune (r : Nat) : Bool :=
  (97 ≤ r && r ≤ 122) || (65 ≤ r && r ≤ 90) ||
  r = 0xAA || r = 0xB5 || r = 0xBA ||
  (0xC0 ≤ r && r ≤ 0xD6) || (0xD8 ≤ r && r ≤ 0xF6) || (0xF8 ≤ r && r ≤ 0xFF)

/-- Go `utf8.DecodeRuneInString`: returns (code point, width).  Empty input
gives (RuneError, 0); an invalid encoding gives (RuneError, 1). -/
def decodeRune : Str → Nat × Nat
| [] => (0xFFFD, 0)
| b :: rest =>
  if b < 0x80 then (b, 1)
  else if b < 0xC2 then (0xFFFD, 1)
  else if b ≤ 0xDF then
    match rest with
    | b1 :: _ =>
      if 0x80 ≤ b1 && b1 ≤ 0xBF then ((b - 0xC0) * 64 + (b1 - 0x80), 2)
      else (0xFFFD, 1)
    | [] => (0xFFFD, 1)
  else if b ≤ 0xEF then
    match rest with
    | b1 :: b2 :: _ =>
      let lo1 := if b = 0xE0 then 0xA0 else 0x80
      let hi1 := if b = 0xED then 0x9F else 0xBF
      if lo1 ≤ b1 && b1 ≤ hi1 && 0x80 ≤ b2 && b2 ≤ 0xBF then
        ((b - 0xE0) * 4096 + (b1 - 0x80) * 64 + (b2 - 0x80), 3)
      else (0xFFFD, 1)
    | _ => (0xFFFD, 1)
  else if b ≤ 0xF4 then
    match rest with
    | b1 :: b2 :: b3 :: _ =>
      let lo1 := if b = 0xF0 then 0x90 else 0x80
      let hi1 := if b = 0xF4 then 0x8F else 0xBF
      if lo1 ≤ b1 && b1 ≤ hi1 && 0x80 ≤ b2 && b2 ≤ 0xBF && 0x80 ≤ b3 && b3 ≤ 0xBF then
        ((b - 0xF0) * 262144 + (b1 - 0x80) * 4096 + (b2 - 0x80) * 64 + (b3 - 0x80), 4)
      else (0xFFFD, 1)
    | _ => (0xFFFD, 1)
  else (0xFFFD, 1)

/-- Go `strings.TrimLeftFunc(s, unicode.IsSpace)`: strip leading
White_Space code points.  Written with explicit byte patterns for the
UTF-8 encodings of the White_Space code points so the definition is
structurally recursive. -/
def trimLeftSpace : Str → Str
| [] => []
| 9 :: r => trimLeftSpace r
| 10 :: r => trimLeftSpace r
| 11 :: r => trimLeftSpace r
| 12 :: r => trimLeftSpace r
| 13 :: r => trimLeftSpace r
| 32 :: r => trimLeftSpace r
| 0xC2 :: 0x85 :: r => trimLeftSpace r
| 0xC2 :: 0xA0 :: r => trimLeftSpace r
| 0xE1 :: 0x9A :: 0x80 :: r => trimLeftSpace r
| 0xE2 :: 0x80 :: b :: r =>
  if (0x80 ≤ b && b ≤ 0x8A) || b = 0xA8 || b = 0xA9 || b = 0xAF then trimLeftSpace r
  else 0xE2 :: 0x80 :: b :: r
| 0xE2 :: 0x81 :: 0x9F :: r => trimLeftSpace r
| 0xE3 :: 0x80 :: 0x80 :: r => trimLeftSpace r
| s => s

/-- The leading-whitespace skip loop of `parseExprWithoutPipe` and `pipe`:
`for len(e) > 1 && unicode.IsSpace(rune(e[0])) { e = e[1:] }` — note the
byte-level space test and the loop stopping when one byte remains. -/
def skipLeadingSpace : Str → Str
| [] => []
| [b] => [b]
| b :: c :: r => if isSpaceByte b then skipLeadingSpace (c :: r) else b :: c :: r

/-- Go `strings.ToLower` restricted to ASCII.  Metric and function names
produced by `parseName` consist of ASCII bytes only (with the source's
empty `RangeTables`), so this is exact at its use site. -/
def toLowerAscii (s : Str) : Str :=
  s.map fun b => if 65 ≤ b && b ≤ 90 then b + 32 else b

instance {ε α : Type} [DecidableEq ε] [DecidableEq α] : DecidableEq (Except ε α) := fun a b =>
  match a, b with
  | .error e1, .error e2 =>
    if h : e1 = e2 then .isTrue (by rw [h]) else .isFalse (by intro c; cases c; exact h rfl)
  | .ok v1, .ok v2 =>
    if h : v1 = v2 then .isTrue (by rw [h]) else .isFalse (by intro c; cases c; exact h rfl)
  | .error _, .ok _ => .isFalse (by intro c; cases c)
  | .ok _, .error _ => .isFalse (by intro c; cases c)

/-- Euclid's algorithm with explicit fuel, so that the kernel can evaluate
it (the first argument strictly decreases, so fuel `a + 1` is always
enough for `gcd a b`). -/
def gcdFuel : Nat → Nat → Nat → Nat
| 0, _, b => b
| f + 1, a, b => if a = 0 then b else gcdFuel f (b % a) a

/-- Greatest common divisor via `gcdFuel`. -/
def natGcd (a b : Nat) : Nat := gcdFuel (a + 1) a b

/-- Exact rational stand-in for Go's float64 (see module docstring).
Always built through `mkGoFloat`, so structural equality coincides with
numeric equality for every value the embedding constructs. -/
structure GoFloat where
  num : Int
  den : Nat
deriving DecidableEq

/-- Normalizing constructor for `GoFloat`. -/
def mkGoFloat (n : Int) (d : Nat) : GoFloat :=
  if d = 0 then ⟨0, 1⟩
  else
    let g := natGcd n.natAbs d
    ⟨n / (g : Int), d / g⟩

/-- The float64 zero value. -/
def goFloatZero : GoFloat := ⟨0, 1⟩

/-- Expression node type, `ExprType` in the parser package.  The Go
constants are declared with `iota`, so `EtName` is the zero value used by
the bare `&expr{target: name}` literal. -/
inductive ExprType where
| EtName
| EtFunc
| EtConst
| EtString
deriving DecidableEq

/-- The parser's error values (`ErrMissingExpr` etc.).  `floatParse`
stands for the `strconv` error propagated out of `parseConst`;
`pipeToNonFunction` for the `errors.New("pipe to not a function")` of
`insertFirstArg`; `argListNoParen` for the `panic` guarding
`parseArgList`'s precondition; `outOfFuel` is an artifact of the fuelled
recursion below and is never produced for the fuel supplied by the
top-level entry points. -/
inductive GoErr where
| missingExpr
| missingArgument
| missingComma
| missingQuote
| missingBrace
| missingBracket
| nestedBrackets
| braceInBrackets
| commaInBrackets
| spacesInBraces
| spacesInBrackets
| unexpectedCharacter
| badType
| floatParse
| pipeToNonFunction
| argListNoParen
| outOfFuel
deriving DecidableEq

mutual
/-- The parser's `expr` struct.  `val` is the float64 field, kept as an
exact rational (see module docstring).  `args` and `namedArgs` are the
positional children and the named-argument map (association list in
insertion order, with in-place overwrite like a Go map). -/
inductive expr where
| mk (target : Str) (etype : ExprType) (val : GoFloat) (valStr : Str)
     (args : exprList) (namedArgs : namedList) (argString : Str)
deriving DecidableEq

/-- List of positional child expressions. -/
inductive exprList where
| nil
| cons (hd : expr) (tl : exprList)
deriving DecidableEq

/-- Named-argument association list. -/
inductive namedList where
| nil
| cons (key : Str) (v : expr) (tl : namedList)
deriving DecidableEq
end

/-- Target (metric pattern or function name) of a node. -/
def expr.target : expr → Str
| .mk t _ _ _ _ _ _ => t

/-- Node tag. -/
def expr.etype : expr → ExprType
| .mk _ e _ _ _ _ _ => e

/-- Float value of a Const node. -/
def expr.val : expr → GoFloat
| .mk _ _ v _ _ _ _ => v

/-- String value of a String node. -/
def expr.valStr : expr → Str
| .mk _ _ _ s _ _ _ => s

/-- Positional children. -/
def expr.args : expr → exprList
| .mk _ _ _ _ a _ _ => a

/-- Named arguments. -/
def expr.namedArgs : expr → namedList
| .mk _ _ _ _ _ n _ => n

/-- Raw argument string of a Func node. -/
def expr.argString : expr → Str
| .mk _ _ _ _ _ _ g => g

/-- Length of a positional-argument list. -/
def exprList.length : exprList → Nat
| .nil => 0
| .cons _ t => t.length + 1

/-- Index into a positional-argument list. -/
def exprList.get? : exprList → Nat → Option expr
| .nil, _ => none
| .cons h _, 0 => some h
| .cons _ t, n + 1 => t.get? n

/-- Append one argument at the end (the `append` in `parseArgList`). -/
def exprList.snoc : exprList → expr → exprList
| .nil, e => .cons e .nil
| .cons h t, e => .cons h (t.snoc e)

/-- A Const node as built by `parseExprWithoutPipe`. -/
def mkConst (v : GoFloat) : expr := .mk [] .EtConst v [] .nil .nil []

/-- A String node as built from a quoted literal. -/
def mkString (s : Str) : expr := .mk [] .EtString goFloatZero s .nil .nil []

/-- The node built for the case-insensitive atoms `true` / `false`:
both `valStr` and `target` hold the original text. -/
def mkBool (name : Str) : expr := .mk name .EtString goFloatZero name .nil .nil []

/-- A bare Name node, `&expr{target: name}` (zero-valued tag `EtName`). -/
def mkName (name : Str) : expr := .mk name .EtName goFloatZero [] .nil .nil []

/-- A Func node as built by `parseExprWithoutPipe` from `parseArgList`'s
results. -/
def mkFunc (name : Str) (argStr : Str) (args : exprList) (named : namedList) : expr :=
  .mk name .EtFunc goFloatZero [] args named argStr

example : goStr "ab," = [97, 98, 44] := by decide
example : skipLeadingSpace (goStr "  a") = goStr "a" := by decide
example : skipLeadingSpace (goStr " ") = goStr " " := by decide
example : trimLeftSpace (goStr "  a ") = goStr "a " := by decide
example : toLowerAscii (goStr "TrUe") = goStr "true" := by decide

/-- Scan for the closing quote byte in `parseString`: returns the content
before the first occurrence of `q` and the bytes after it. -/
def takeUntilByte (q : Nat) : Str → Option (Str × Str)
| [] => none
| b :: r =>
  if b = q then some ([], r)
  else match takeUntilByte q r with
       | none => none
       | some (c, rest) => some (b :: c, rest)

/-- Port of `parseString` (parser.go): the opening quote byte determines
the closing quote; no escape processing; a missing closer is
`ErrMissingQuote`.  The function is only called with a leading quote
(the Go code panics otherwise, modelled as `missingQuote` as well). -/
def parseStringGo : Str → Except GoErr (Str × Str)
| [] => .error .missingQuote
| q :: r =>
  if q = 39 || q = 34 then
    match takeUntilByte q r with
    | some (content, rest) => .ok (content, rest)
    | none => .error .missingQuote
  else .error .missingQuote

/-- Post-loop missing-closer check of `parseName`, also reached when the
scan breaks out of the loop. -/
def parseNameStop (braces brackets : Nat) : Except GoErr Nat :=
  if 0 < braces then .error .missingBrace
  else if 0 < brackets then .error .missingBracket
  else .ok 0

/-- The scanning loop of `parseName` (parser.go): walks the bytes with the
current `{}` and `[]` nesting depths and returns how many bytes belong to
the name, or the lexing error.  `RangeTables` is empty (its source
default), so the default case always terminates the name. -/
def parseNameAux : Str → Nat → Nat → Except GoErr Nat
| [], braces, brackets =>
  if 0 < braces then .error .missingBrace
  else if 0 < brackets then .error .missingBracket
  else .ok 0
| b :: rest, braces, brackets =>
  if isNameChar b then (parseNameAux rest braces brackets).map (· + 1)
  else if b = 123 then
    if 0 < brackets then .error .braceInBrackets
    else (parseNameAux rest (braces + 1) brackets).map (· + 1)
  else if b = 125 then
    if 0 < brackets then .error .braceInBrackets
    else if braces = 0 then .error .missingBrace
    else (parseNameAux rest (braces - 1) brackets).map (· + 1)
  else if b = 91 then
    if 0 < brackets then .error .nestedBrackets
    else (parseNameAux rest braces (brackets + 1)).map (· + 1)
  else if b = 93 then
    if brackets = 0 then .error .missingBracket
    else (parseNameAux rest braces (brackets - 1)).map (· + 1)
  else if b = 44 then
    if 0 < brackets then .error .commaInBrackets
    else if braces = 0 then parseNameStop braces brackets
    else (parseNameAux rest braces brackets).map (· + 1)
  else if b = 32 || b = 9 || b = 10 then
    if 0 < braces then .error .spacesInBraces
    else if 0 < brackets then .error .spacesInBrackets
    else parseNameStop braces brackets
  else parseNameStop braces brackets

/-- Port of `parseName` (parser.go): the parsed name and the rest of the
input, or a lexing error. -/
def parseNameGo (s : Str) : Except GoErr (Str × Str) :=
  match parseNameAux s 0 0 with
  | .error e => .error e
  | .ok i => if i = s.length then .ok (s, []) else .ok (s.take i, s.drop i)

/-- Character set slurped by `parseConst`: digits, dot, signs, `e`, `E`. -/
def isConstChar (b : Nat) : Bool :=
  isDigitByte b || b = 46 || b = 43 || b = 45 || b = 101 || b = 69

/-- Length of the maximal leading run of `parseConst` characters. -/
def constRunLen : Str → Nat
| [] => 0
| b :: r => if isConstChar b then constRunLen r + 1 else 0

/-- Split a leading run of ASCII digits. -/
def spanDigits : Str → Str × Str
| [] => ([], [])
| b :: r =>
  if isDigitByte b then
    let (ds, rest) := spanDigits r
    (b :: ds, rest)
  else ([], b :: r)

/-- Numeric value of a list of ASCII digit bytes. -/
def digitsToNat : Str → Nat
| [] => 0
| b :: r => (b - 48) * 10 ^ r.length + digitsToNat r

/-- Smallest decimal value that `strconv.ParseFloat` reports as an
overflow of float64: half an ulp above the largest finite float64,
`2 ^ 1024 - 2 ^ 970`, written as an explicit numeral so the kernel can
use it directly. -/
def float64Overflow : Nat := 179769313486231580793728971405303415079934132710037826936173778980444968292764750946649017977587207096330286416692887910946555547851940402630657488671505820681908902000708383676273854845817711531764475730270069855571366959622842914819860834936475292719074168444365510704342711559699508093042880177904174497792

/-- Go `strconv.ParseFloat` on the strings reachable from `parseConst`
(no hex, inf, nan or underscores, whose characters are outside
`parseConst`'s set): optional sign, decimal mantissa with optional
fraction, optional decimal exponent; the whole string must match.
Returns the exact rational value, or `none` for a syntax error or a
float64 overflow (Go's `ErrRange`).  Underflow is not an error. -/
def goParseFloat (s : Str) : Option GoFloat :=
  let (neg, s1) : Bool × Str :=
    match s with
    | 43 :: r => (false, r)
    | 45 :: r => (true, r)
    | _ => (false, s)
  let (ip, s2) := spanDigits s1
  let (fp, s3) : Str × Str :=
    match s2 with
    | 46 :: r => spanDigits r
    | _ => ([], s2)
  let hadDot : Bool := match s2 with | 46 :: _ => true | _ => false
  if ip = [] ∧ fp = [] then none
  else
    let mantNum : Nat := digitsToNat (ip ++ fp)
    let mantDen : Nat := 10 ^ fp.length
    let rest3 : Str := if hadDot then s3 else s2
    let finish : Nat → Nat → Option GoFloat := fun num den =>
      if float64Overflow * den ≤ num then none
      else some (mkGoFloat (if neg then -(num : Int) else (num : Int)) den)
    match rest3 with
    | [] => finish mantNum mantDen
    | e :: r4 =>
      if e = 101 ∨ e = 69 then
        let (esign, r5) : Bool × Str :=
          match r4 with
          | 43 :: r => (false, r)
          | 45 :: r => (true, r)
          | _ => (false, r4)
        let (eds, r6) := spanDigits r5
        if eds = [] then none
        else if r6 ≠ [] then none
        else
          let ev : Nat := digitsToNat eds
          if esign then finish mantNum (mantDen * 10 ^ ev)
          else finish (mantNum * 10 ^ ev) mantDen
      else none

/-- Port of `parseConst` (parser.go): slurp the maximal constant-character
run and hand it to `ParseFloat`.  On a conversion error Go returns an
empty tail together with the error; the error case is all that callers
observe, so it is modelled as `.error`. -/
def parseConstGo (s : Str) : Except Unit (GoFloat × Str) :=
  let i := constRunLen s
  match goParseFloat (s.take i) with
  | some v => .ok (v, s.drop i)
  | none => .error ()

example : parseNameGo (goStr "ab,cd") = .ok (goStr "ab", goStr ",cd") := by decide
example : parseNameGo (goStr "a.b*") = .ok (goStr "a.b*", []) := by decide
example : parseNameGo (goStr "\x7b[a]\x7d") = .ok (goStr "\x7b[a]\x7d", []) := by decide
example : parseNameGo (goStr "\x7ba b\x7d") = .error .spacesInBraces := by decide
example : parseNameGo (goStr "[a,b]") = .error .commaInBrackets := by decide
example : parseNameGo (goStr "[a") = .error .missingBracket := by decide
example : goParseFloat (goStr "2.5") = some (mkGoFloat 5 2) := by decide
example : goParseFloat (goStr "-1") = some (mkGoFloat (-1) 1) := by decide
example : goParseFloat (goStr "1e+3") = some (mkGoFloat 1000 1) := by decide
example : goParseFloat (goStr "-") = none := by decide
example : goParseFloat (goStr "1e") = none := by decide
example : goParseFloat (goStr "1.2.3") = none := by decide
example : parseConstGo (goStr "-1foo") = .ok (mkGoFloat (-1) 1, goStr "foo") := by decide

/-- Decimal digit bytes of a natural number, via fuelled division. -/
def natDigitsAux : Nat → Nat → Str
| 0, _ => []
| _ + 1, 0 => []
| f + 1, n => natDigitsAux f (n / 10) ++ [48 + n % 10]

/-- Decimal representation of a natural number (Go `%d`). -/
def natDigits (n : Nat) : Str :=
  if n = 0 then [48] else natDigitsAux (n + 1) n

/-- Fuelled extraction of the exponent of `p` in `n`. -/
def factorOutF : Nat → Nat → Nat → Nat × Nat
| 0, _, n => (0, n)
| f + 1, p, n =>
  if 2 ≤ p ∧ 0 < n ∧ n % p = 0 then
    let (e, r) := factorOutF f p (n / p)
    (e + 1, r)
  else (0, n)

/-- Exponent of `p` in `n` and the remaining cofactor. -/
def factorOut (p n : Nat) : Nat × Nat := factorOutF (n + 1) p n

/-- Count of trailing zero digits of a digit string. -/
def countLeadingZeroDigits : Str → Nat
| [] => 0
| b :: r => if b = 48 then countLeadingZeroDigits r + 1 else 0

/-- Exponent field of Go scientific notation: sign plus at least two
digits (`e+06`). -/
def goExpPart (ex : Int) : Str :=
  let d := natDigits ex.natAbs
  (if ex < 0 then [45] else [43]) ++ (if d.length = 1 then 48 :: d else d)

/-- Go `fmt.Sprint` on a float64 (`%v`, i.e. `strconv.FormatFloat('g', -1)`)
applied to the exact rational value: shortest digit string of the exact
value, fixed notation when the decimal exponent is in [-4, 5] and
scientific notation otherwise.  Rationals whose denominator is not of
the form 2^a·5^b cannot arise from parsing and fall back to a
fraction rendering. -/
def goFormatFloat (v : GoFloat) : Str :=
  if v.num = 0 then [48]
  else
    let sign : Str := if v.num < 0 then [45] else []
    let n := v.num.natAbs
    let (a, d2) := factorOut 2 v.den
    let (b, d5) := factorOut 5 d2
    if d5 ≠ 1 then sign ++ natDigits n ++ [47] ++ natDigits v.den
    else
      let c := max a b
      let scaled : Nat := n * 2 ^ (c - a) * 5 ^ (c - b)
      let full := natDigits scaled
      let t := countLeadingZeroDigits full.reverse
      let ds := full.take (full.length - t)
      let nd := ds.length
      let dp : Int := (full.length : Int) - (c : Int)
      let ex : Int := dp - 1
      if ex < -4 ∨ 6 ≤ ex then
        match ds with
        | d1 :: drest =>
          sign ++ [d1] ++ (if drest = [] then [] else 46 :: drest) ++ [101] ++ goExpPart ex
        | [] => sign
      else
        if dp ≤ 0 then sign ++ [48, 46] ++ List.replicate (-dp).toNat 48 ++ ds
        else if dp < (nd : Int) then sign ++ ds.take dp.toNat ++ [46] ++ ds.drop dp.toNat
        else sign ++ ds ++ List.replicate (dp - nd).toNat 48

/-- Replace each backslash by two (first `strings.Replace` in `ToString`'s
String case). -/
def escapeBackslashes (s : Str) : Str :=
  s.flatMap fun b => if b = 92 then [92, 92] else [b]

/-- Replace each single quote by backslash-quote (second `strings.Replace`
in `ToString`'s String case). -/
def escapeQuotes (s : Str) : Str :=
  s.flatMap fun b => if b = 39 then [92, 39] else [b]

/-- Port of `ToString` (parser.go): Func prints `target(argString)`,
Const prints the float value, String re-quotes with escaping, anything
else prints the target. -/
def expr.toString : expr → Str
| .mk t et v vs _ _ argStr =>
  match et with
  | .EtFunc => t ++ [40] ++ argStr ++ [41]
  | .EtConst => goFormatFloat v
  | .EtString => [39] ++ escapeQuotes (escapeBackslashes vs) ++ [39]
  | .EtName => t

/-- Port of `insertFirstArg` (parser.go): `e` is the pipe callee, `exp`
the piped-in left expression; refuses non-Func callees, otherwise
prepends `exp` to the positional arguments and `exp`'s canonical text
(comma-separated) to the raw argument string. -/
def insertFirstArg (e exp : expr) : Except GoErr expr :=
  match e with
  | .mk t et v vs args named argStr =>
    if et ≠ .EtFunc then .error .pipeToNonFunction
    else .ok (.mk t et v vs (.cons exp args) named
      (if argStr = [] then exp.toString else exp.toString ++ [44] ++ argStr))

/-- The fresh node a named-argument value is copied into (`parseArgList`):
only `etype`, `val`, `valStr` and `target` are carried over. -/
def copyNamedValue (a : expr) : expr :=
  .mk a.target a.etype a.val a.valStr .nil .nil []

/-- Go map assignment `namedArgs[k] = v` on the association list. -/
def namedList.insert : namedList → Str → expr → namedList
| .nil, k, v => .cons k v .nil
| .cons k0 v0 t, k, v => if k0 = k then .cons k v t else .cons k0 v0 (t.insert k v)

/-- Comma-join into the canonical argument-string buffer
(`argStringBuffer` in `parseArgList`). -/
def appendArgString (buf s : Str) : Str :=
  if buf = [] then s else buf ++ [44] ++ s

mutual
/-- Port of `ParseExpr` (parser.go), fuelled: parse one expression, then
fold any pipe chain into it. -/
def parseExprF : Nat → Str → Except GoErr (expr × Str)
| 0, _ => .error .outOfFuel
| fuel + 1, e =>
  match parseExprWithoutPipeF fuel e with
  | .error err => .error err
  | .ok (exp, rest) => pipeF fuel exp rest

/-- Port of `parseExprWithoutPipe` (parser.go), fuelled: skip leading
whitespace (stopping with one byte left), then dispatch on the leading
byte: possible constant, quoted string, or name. -/
def parseExprWithoutPipeF : Nat → Str → Except GoErr (expr × Str)
| 0, _ => .error .outOfFuel
| fuel + 1, e0 =>
  match skipLeadingSpace e0 with
  | [] => .error .missingExpr
  | b :: rest =>
    if isDigitByte b || b = 45 || b = 43 then
      match parseConstGo (b :: rest) with
      | .ok (v, tail) =>
        if isLetterRune (decodeRune tail).1 then nameBranchF fuel (b :: rest)
        else .ok (mkConst v, tail)
      | .error _ => .error .floatParse
    else if b = 39 || b = 34 then
      match parseStringGo (b :: rest) with
      | .ok (val, tail) => .ok (mkString val, tail)
      | .error err => .error err
    else nameBranchF fuel (b :: rest)

/-- The name path of `parseExprWithoutPipe`: lex a name, recognize the
`true`/`false` atoms, reject an empty name, and parse an argument list
when an opening parenthesis follows. -/
def nameBranchF : Nat → Str → Except GoErr (expr × Str)
| 0, _ => .error .outOfFuel
| fuel + 1, e =>
  match parseNameGo e with
  | .error err => .error err
  | .ok (name, rest) =>
    if toLowerAscii name = goStr "false" || toLowerAscii name = goStr "true" then
      .ok (mkBool name, rest)
    else if name = [] then .error .missingArgument
    else
      match trimLeftSpace rest with
      | 40 :: r2 =>
        match parseArgListF fuel (40 :: r2) with
        | .ok (argStr, args, named, tail) => .ok (mkFunc name argStr args named, tail)
        | .error err => .error err
      | r2 => .ok (mkName name, r2)

/-- Port of `pipe` (parser.go), fuelled: while a `|` follows, parse the
callee and insert the accumulated expression as its first argument. -/
def pipeF : Nat → expr → Str → Except GoErr (expr × Str)
| 0, _, _ => .error .outOfFuel
| fuel + 1, exp, e0 =>
  match skipLeadingSpace e0 with
  | 124 :: rest =>
    (match parseExprWithoutPipeF fuel rest with
     | .error err => .error err
     | .ok (wr, e2) =>
       match insertFirstArg wr exp with
       | .error err => .error err
       | .ok merged => pipeF fuel merged e2)
  | other => .ok (exp, other)

/-- Port of `parseArgList` (parser.go), fuelled: handles the empty-list
case, then runs the argument loop.  Being called without a leading `(`
is a `panic` in Go (modelled as `argListNoParen`); `parseExprWithoutPipe`
never does that. -/
def parseArgListF : Nat → Str → Except GoErr (Str × exprList × namedList × Str)
| 0, _ => .error .outOfFuel
| fuel + 1, e =>
  match e with
  | 40 :: e1 =>
    (match trimLeftSpace e1 with
     | 41 :: t1 => .ok ([], .nil, .nil, t1)
     | _ => argLoopF fuel e1 [] .nil .nil)
  | _ => .error .argListNoParen

/-- One iteration of `parseArgList`'s loop: parse the next entry, handle
the `name=value` form, record the consumed raw text. -/
def argLoopF : Nat → Str → Str → exprList → namedList → Except GoErr (Str × exprList × namedList × Str)
| 0, _, _, _, _ => .error .outOfFuel
| fuel + 1, e, buf, pos, named =>
  match parseExprF fuel e with
  | .error err => .error err
  | .ok (arg, e1) =>
    if e1 = [] then .error .missingComma
    else
      match arg.etype, e1 with
      | .EtName, 61 :: e2 =>
        (match parseExprF fuel e2 with
         | .error err => .error err
         | .ok (argCont, eCont) =>
           if eCont = [] then .error .missingComma
           else if argCont.etype ≠ .EtConst ∧ argCont.etype ≠ .EtName ∧ argCont.etype ≠ .EtString then
             .error .badType
           else
             sepStepF fuel eCont
               (appendArgString buf (e.take (e.length - eCont.length)))
               pos (named.insert arg.target (copyNamedValue argCont)))
      | _, _ =>
        sepStepF fuel e1
          (appendArgString buf (if arg.etype = .EtFunc then arg.toString else e.take (e.length - e1.length)))
          (pos.snoc arg) named

/-- The separator handling at the bottom of `parseArgList`'s loop: trim
spaces, close on `)`, consume a `,` or space, or fail. -/
def sepStepF : Nat → Str → Str → exprList → namedList → Except GoErr (Str × exprList × namedList × Str)
| 0, _, _, _, _ => .error .outOfFuel
| fuel + 1, e0, buf, pos, named =>
  match trimLeftSpace e0 with
  | [] => .error .unexpectedCharacter
  | 41 :: rest => .ok (buf, pos, named, rest)
  | 44 :: rest => argLoopF fuel rest buf pos named
  | 32 :: rest => argLoopF fuel rest buf pos named
  | _ => .error .unexpectedCharacter
end

/-- Fuel that always suffices for the parser's call depth on input `e`
(every cycle through the mutual recursion consumes input bytes). -/
def parserFuel (e : Str) : Nat := 8 * e.length + 16

/-- Top-level `ParseExpr`. -/
def parseExpr (e : Str) : Except GoErr (expr × Str) :=
  parseExprF (parserFuel e) e

/-- Top-level `parseExprWithoutPipe` (entry used by the claims about the
token-level dispatch). -/
def parseExprWithoutPipe (e : Str) : Except GoErr (expr × Str) :=
  parseExprWithoutPipeF (parserFuel e) e

example : parseExpr (goStr "a.b") = .ok (mkName (goStr "a.b"), []) := by decide
example : parseExpr (goStr "") = .error .missingExpr := by decide
example : parseExpr (goStr "  ") = .error .missingArgument := by decide
example :
    parseExpr (goStr "sum(a.b, c.d)") =
      .ok (mkFunc (goStr "sum") (goStr "a.b, c.d")
        (.cons (mkName (goStr "a.b")) (.cons (mkName (goStr "c.d")) .nil)) .nil, []) := by
  decide
example :
    parseExpr (goStr "a | scale(2)") =
      .ok (mkFunc (goStr "scale") (goStr "a,2")
        (.cons (mkName (goStr "a")) (.cons (mkConst (mkGoFloat 2 1)) .nil)) .nil, []) := by
  decide
example : parseExpr (goStr "a | scale(2)") = parseExpr (goStr "scale(a,2)") := by decide
example : parseExpr (goStr "-1foo") = .ok (mkName (goStr "-1foo"), []) := by decide
example : parseExprWithoutPipe (goStr "-a") = .error .floatParse := by decide
example : parseExpr (goStr "true") = .ok (mkBool (goStr "true"), []) := by decide

/-- `MetricRequest` (parser package): pattern plus int32 time bounds. -/
structure MetricRequest where
  Metric : Str
  From : Int
  Until : Int
deriving DecidableEq

/-- Two's-complement wrap to int32, for the request-time arithmetic that
Go performs on int32 fields. -/
def wrap32 (z : Int) : Int := (z + 2 ^ 31) % 2 ^ 32 - 2 ^ 31

/-- Seconds per supported duration unit.  Modelled from the spec:
`IntervalString` parses human durations such as `30s`, `1h`, `7d`. -/
def unitSeconds (u : Str) : Option Nat :=
  if u = goStr "s" then some 1
  else if u = goStr "min" then some 60
  else if u = goStr "h" then some 3600
  else if u = goStr "d" then some 86400
  else if u = goStr "w" then some 604800
  else none

/-- Modelled from the spec: `IntervalString` (pkg/parser, not under src/)
parses a signed human duration — optional sign, digit count, unit — with
`defaultSign` applied when no sign is written, returning seconds as a
signed 32-bit integer; `none` is the parse error. -/
def goIntervalString (s : Str) (defaultSign : Int) : Option Int :=
  let (sign, s1) : Int × Str :=
    match s with
    | 43 :: r => (1, r)
    | 45 :: r => (-1, r)
    | _ => (defaultSign, s)
  let (ds, s2) := spanDigits s1
  if ds = [] then none
  else
    match unitSeconds s2 with
    | some u => some (wrap32 (sign * (digitsToNat ds : Int) * (u : Int)))
    | none => none

/-- Port of `GetIntervalArg` (parser.go) over the argument list: missing
argument if the index is out of range, bad type unless the node is a
String whose value parses as a duration. -/
def getIntervalArgA (args : exprList) (n : Nat) (defaultSign : Int) : Except GoErr Int :=
  match args.get? n with
  | none => .error .missingArgument
  | some a =>
    if a.etype ≠ .EtString then .error .badType
    else
      match goIntervalString a.valStr defaultSign with
      | some secs => .ok secs
      | none => .error .badType

/-- Port of `GetIntArg` (parser.go); its helper `doGetIntArg` is not under
src/ and is modelled from the spec: bad type unless the node is a Const,
whose float value is truncated to an integer. -/
def getIntArgA (args : exprList) (n : Nat) : Except GoErr Int :=
  match args.get? n with
  | none => .error .missingArgument
  | some a =>
    if a.etype ≠ .EtConst then .error .badType
    else .ok (a.val.num.tdiv (a.val.den : Int))

mutual
/-- Port of `Metrics` (parser.go): the metric requests a tree demands.
`none` models the Go panic on `e.args[1]` when a `moving*` function has
fewer than two arguments; every other failure inside the walk silently
contributes no requests, as in the source (`return nil`). -/
def metrics : expr → Option (List MetricRequest)
| .mk target etype _ _ args _ _ =>
  match etype with
  | .EtName => some [⟨target, 0, 0⟩]
  | .EtConst => some []
  | .EtString => some []
  | .EtFunc =>
    match metricsList args with
    | none => none
    | some r =>
      if target = goStr "timeShift" then
        match getIntervalArgA args 1 (-1) with
        | .error _ => some []
        | .ok offs =>
          some (r.map fun v => ⟨v.Metric, wrap32 (v.From + offs), wrap32 (v.Until + offs)⟩)
      else if target = goStr "timeStack" then
        match getIntervalArgA args 1 (-1) with
        | .error _ => some []
        | .ok offs =>
          match getIntArgA args 2 with
          | .error _ => some []
          | .ok start =>
            match getIntArgA args 3 with
            | .error _ => some []
            | .ok stop =>
              let s32 := wrap32 start
              let e32 := wrap32 stop
              some (r.flatMap fun v =>
                (List.range (e32 - s32).toNat).map fun j =>
                  let i : Int := s32 + (j : Int)
                  ⟨v.Metric, wrap32 (v.From + wrap32 (i * offs)),
                   wrap32 (v.Until + wrap32 (i * offs))⟩)
      else if target = goStr "holtWintersForecast" ∨ target = goStr "holtWintersConfidenceBands" ∨
              target = goStr "holtWintersAberration" then
        some (r.map fun v => ⟨v.Metric, wrap32 (v.From - 7 * 86400), v.Until⟩)
      else if target = goStr "movingAverage" ∨ target = goStr "movingMedian" ∨
              target = goStr "movingMin" ∨ target = goStr "movingMax" ∨
              target = goStr "movingSum" then
        match args.get? 1 with
        | none => none
        | some a1 =>
          if a1.etype = .EtString then
            match getIntervalArgA args 1 1 with
            | .error _ => some []
            | .ok offs => some (r.map fun v => ⟨v.Metric, wrap32 (v.From - offs), v.Until⟩)
          else some r
      else some r

/-- Union of the children's requests, in argument order. -/
def metricsList : exprList → Option (List MetricRequest)
| .nil => some []
| .cons h t =>
  match metrics h, metricsList t with
  | some x, some y => some (x ++ y)
  | _, _ => none
end

/-- Backend error shape: the `types.ErrNotFound` sentinel versus every
other error, each carrying its `Error()` text (the design the spec
prescribes in section 9). -/
inductive GoError where
| notFound (msg : Str)
| other (msg : Str)
deriving DecidableEq

/-- The `e.(types.ErrNotFound)` type assertion / `errors.As` test. -/
def isNotFoundErr : GoError → Bool
| .notFound _ => true
| .other _ => false

/-- Error text.  Modelled from the spec for the NotFound case: the
`types.ErrNotFound` string type (not under src/) renders as its text. -/
def errString : GoError → Str
| .notFound m => m
| .other m => m

/-- One `counts[e.Error()] += 1` step on the association list. -/
def bumpCount : List (Str × Nat) → Str → List (Str × Nat)
| [], k => [(k, 1)]
| (k0, c) :: t, k => if k0 = k then (k0, c + 1) :: t else (k0, c) :: bumpCount t k

/-- The `counts` map of `errorsFanIn`, in first-appearance order. -/
def buildCounts (errs : List GoError) : List (Str × Nat) :=
  errs.foldl (fun acc e => bumpCount acc (errString e)) []

/-- Lexicographic byte order on strings (Go string `<`). -/
def lexLt : Str → Str → Bool
| [], [] => false
| [], _ :: _ => true
| _ :: _, [] => false
| a :: as, b :: bs => if a < b then true else if b < a then false else lexLt as bs

/-- Insertion into a key-sorted association list. -/
def insertSortedByKey (x : Str × Nat) : List (Str × Nat) → List (Str × Nat)
| [] => [x]
| y :: t => if lexLt x.1 y.1 then x :: y :: t else y :: insertSortedByKey x t

/-- Sort an association list by key (Go `fmt` prints map keys sorted). -/
def sortByKey : List (Str × Nat) → List (Str × Nat)
| [] => []
| x :: t => insertSortedByKey x (sortByKey t)

/-- Space-separated join, as in `fmt`'s map rendering. -/
def joinSpace : List Str → Str
| [] => []
| [x] => x
| x :: y :: t => x ++ [32] ++ joinSpace (y :: t)

/-- Go `fmt.Sprintf("%+v", counts)` for a `map[string]int`: entries
`key:value` sorted by key, space-separated, wrapped in `map[...]`. -/
def formatCountsGo (cs : List (Str × Nat)) : Str :=
  goStr "map[" ++ joinSpace (cs.map fun kv => kv.1 ++ [58] ++ natDigits kv.2) ++ [93]

/-- The NotFound diagnostic text of `errorsFanIn`. -/
def notFoundMsg (total notfound : Nat) : Str :=
  goStr "majority of backends returned not found. " ++ natDigits total ++
  goStr " total errors, " ++ natDigits notfound ++ goStr " not found"

/-- The internal-inconsistency text of `errorsFanIn`. -/
def internalMsg : Str :=
  goStr "got more errors than there are backends. Probably something is broken"

/-- The full mixed-failure text of `errorsFanIn`, before truncation. -/
def mixedMsgFull (errs : List GoError) : Str :=
  goStr "all backends failed with mixed errors: " ++
  formatCountsGo (sortByKey (buildCounts errs))

/-- The 300-byte truncation applied to the mixed-failure message. -/
def truncate300 (s : Str) : Str := if 300 < s.length then s.take 300 else s

/-- Port of `errorsFanIn` (http_handlers.go): classify the per-backend
error vector; `none` is success (a nil error). -/
def errorsFanIn (errs : List GoError) (nBackends : Nat) : Option GoError :=
  let nErrs := errs.length
  if nErrs = 0 then none
  else if nErrs < nBackends then none
  else if nBackends < nErrs then some (.other internalMsg)
  else
    let nNotNotFounds := (errs.filter fun e => !isNotFoundErr e).length
    let nMajority := (nBackends + 1) / 2
    if nNotNotFounds < nMajority then
      some (.notFound (notFoundMsg nErrs (nErrs - nNotNotFounds)))
    else some (.other (truncate300 (mixedMsgFull errs)))

/-- Response body shape: an error text written via `http.Error`, or the
bytes of the (opaque, out-of-scope) result encoder. -/
inductive RespBody where
| errText (msg : Str)
| encodedPayload
deriving DecidableEq

/-- Status code plus body shape of a handler response. -/
structure HttpResp where
  code : Nat
  body : RespBody
deriving DecidableEq

/-- Control flow of `findHandler` (http_handlers.go) after the fan-in:
a non-NotFound error is a 500 with the error text; a NotFound (or no
error) falls through to encoding, a 200 with the encoded matches when the
encoder succeeds and a 500 otherwise.  `encodeOk` stands for the opaque
encoder outcome (unknown formats included). -/
def findHandlerFanInResponse (res : Option GoError) (encodeOk : Bool) : HttpResp :=
  let encoded : HttpResp :=
    if encodeOk then ⟨200, .encodedPayload⟩
    else ⟨500, .errText (goStr "error marshaling data")⟩
  match res with
  | some err => if isNotFoundErr err then encoded else ⟨500, .errText (errString err)⟩
  | none => encoded

/-- Control flow of `renderHandler` (http_handlers.go) after the fan-in:
NotFound is a 404 `not found`, any other error a 500
`error fetching the data`; otherwise encoding decides between 200 and a
marshaling 500. -/
def renderHandlerFanInResponse (res : Option GoError) (encodeOk : Bool) : HttpResp :=
  match res with
  | some err =>
    if isNotFoundErr err then ⟨404, .errText (goStr "not found")⟩
    else ⟨500, .errText (goStr "error fetching the data")⟩
  | none =>
    if encodeOk then ⟨200, .encodedPayload⟩
    else ⟨500, .errText (goStr "error marshaling data")⟩

example :
    errorsFanIn [.notFound (goStr "not found"), .notFound (goStr "not found"),
                 .other (goStr "timeout")] 3 =
      some (.notFound (notFoundMsg 3 2)) := by decide
example :
    errorsFanIn [.notFound (goStr "a"), .other (goStr "b"), .other (goStr "c")] 3 =
      some (.other (goStr "all backends failed with mixed errors: map[a:1 b:1 c:1]")) := by
  decide
example : errorsFanIn [] 0 = none := by decide
example : errorsFanIn [.other (goStr "x")] 2 = none := by decide
example : errorsFanIn [.other (goStr "x"), .other (goStr "y")] 1 = some (.other internalMsg) := by decide
example :
    metrics (mkFunc (goStr "timeShift")
      (goStr "m,x")
      (.cons (mkName (goStr "m")) (.cons (mkString (goStr "1h")) .nil)) .nil) =
      some [⟨goStr "m", -3600, -3600⟩] := by decide

theorem length_filter_not_isNotFound (l : List GoError) :
    (l.filter fun e => !isNotFoundErr e).length =
      l.length - (l.filter fun e => isNotFoundErr e).length := by
  induction l with
  | nil => rfl
  | cons h t ih =>
    have hle := List.length_filter_le (fun e => isNotFoundErr e) t
    cases hh : isNotFoundErr h
    all_goals simp [List.filter_cons, hh, ih]
    all_goals omega

theorem truncate300_length_le (s : Str) : (truncate300 s).length ≤ 300 := by
  unfold truncate300
  split
  all_goals simp_all [List.length_take]

/-- C1: the error reconciler `errorsFanIn` on `m` errors out of `n`
attempted backends returns success when `m = 0` or `m < n`, the internal
inconsistency error when `m > n`, and for `m = n` (with `n > 0`,
the earlier cases having priority) classifies by majority: with `k`
NotFound errors it surfaces NotFound when `n - k < ⌊(n+1)/2⌋` and
otherwise the single mixed-failure error whose message lists the unique
error strings with their counts, truncated to 300 bytes. -/
theorem c1_error_reconciler (errs : List GoError) (n : Nat) :
    ((errs.length = 0 ∨ errs.length < n) → errorsFanIn errs n = none) ∧
    (n < errs.length → errorsFanIn errs n = some (.other internalMsg)) ∧
    (errs.length = n → 0 < n →
      ((n - (errs.filter fun e => isNotFoundErr e).length < (n + 1) / 2 →
          errorsFanIn errs n =
            some (.notFound (notFoundMsg n (errs.filter fun e => isNotFoundErr e).length))) ∧
       ((n + 1) / 2 ≤ n - (errs.filter fun e => isNotFoundErr e).length →
          errorsFanIn errs n = some (.other (truncate300 (mixedMsgFull errs))) ∧
          (truncate300 (mixedMsgFull errs)).length ≤ 300))) := by
  have hk := List.length_filter_le (fun e => isNotFoundErr e) errs
  have hnn := length_filter_not_isNotFound errs
  refine ⟨?_, ?_, ?_⟩
  · rintro (h | h) <;> simp only [errorsFanIn] <;> split_ifs <;> first | rfl | omega
  · intro h; simp only [errorsFanIn]; split_ifs <;> first | rfl | omega
  · intro hm hn
    constructor
    · intro hmaj
      simp only [errorsFanIn]
      split_ifs with h1 h2 h3 h4
      · omega
      · omega
      · omega
      · have e2 : errs.length - (errs.filter fun e => !isNotFoundErr e).length =
            (errs.filter fun e => isNotFoundErr e).length := by omega
        rw [e2, hm]
      · omega
    · intro hmaj
      simp only [errorsFanIn]
      split_ifs with h1 h2 h3 h4 <;> first | omega | exact ⟨rfl, truncate300_length_le _⟩

/-- Witness for C1 at a concrete input: one error out of two backends is
a success. -/
theorem c1_error_reconciler_witness :
    (([GoError.other (goStr "x")].length = 0 ∨ [GoError.other (goStr "x")].length < 2) ∧
     errorsFanIn [GoError.other (goStr "x")] 2 = none) :=
  ⟨Or.inr (by decide), (c1_error_reconciler [GoError.other (goStr "x")] 2).1 (Or.inr (by decide))⟩

/-- C2 counterexample: on `[NotFound, NotFound, timeout]` with three
backends the reconciler returns the NotFound error (the claim asserts a
mixed-failure error). -/
theorem c2_counterexample :
    errorsFanIn [GoError.notFound (goStr "not found"), GoError.notFound (goStr "not found"),
      GoError.other (goStr "timeout")] 3 = some (.notFound (notFoundMsg 3 2)) := by
  decide

/-- C2 amended: for three attempted backends with error vector
`[NotFound, NotFound, other]` the reconciler returns a NotFound error
(the 1 non-NotFound failure is below the majority threshold 2), whatever
the three message texts are. -/
theorem c2_amended_notfound (m1 m2 m3 : Str) :
    errorsFanIn [GoError.notFound m1, GoError.notFound m2, GoError.other m3] 3 =
      some (.notFound (notFoundMsg 3 2)) := rfl

/-- C8: a reconciled NotFound error makes the find endpoint respond 200
with the encoded (empty) payload and the render endpoint respond 404;
any other reconciled error yields 500 at both endpoints. -/
theorem c8_http_mapping (err : GoError) :
    (isNotFoundErr err = true →
      findHandlerFanInResponse (some err) true = ⟨200, .encodedPayload⟩ ∧
      renderHandlerFanInResponse (some err) true = ⟨404, .errText (goStr "not found")⟩) ∧
    (isNotFoundErr err = false →
      findHandlerFanInResponse (some err) true = ⟨500, .errText (errString err)⟩ ∧
      renderHandlerFanInResponse (some err) true =
        ⟨500, .errText (goStr "error fetching the data")⟩) := by
  cases err <;>
    simp [findHandlerFanInResponse, renderHandlerFanInResponse, isNotFoundErr, errString]

/-- Witness for C8 at a concrete NotFound error. -/
theorem c8_http_mapping_witness :
    isNotFoundErr (.notFound (goStr "nf")) = true ∧
    findHandlerFanInResponse (some (.notFound (goStr "nf"))) true = ⟨200, .encodedPayload⟩ :=
  ⟨by decide, ((c8_http_mapping (.notFound (goStr "nf"))).1 (by decide)).1⟩

/-- C9: with zero backends attempted and an empty error vector the
reconciler classifies the outcome as success, so the find handler falls
through to encoding and answers 200 with the encoded empty result. -/
theorem c9_zero_backends_success :
    errorsFanIn [] 0 = none ∧
    findHandlerFanInResponse (errorsFanIn [] 0) true = ⟨200, .encodedPayload⟩ :=
  ⟨rfl, rfl⟩

/-- C6 counterexample: a `[` inside braces is accepted (it opens a range
list), so `parseName` parses `{[a]}` in full; the claim asserts a `[`
inside braces is rejected. -/
theorem c6_counterexample :
    parseNameGo (goStr "\x7b[a]\x7d") = .ok (goStr "\x7b[a]\x7d", []) := by decide

/-- C6 amended: the metric-name scanner rejects a space inside braces
with spaces-in-braces; a `[` inside braces is accepted and opens a
bracket context; inside brackets (and outside braces) a space is
rejected with spaces-in-brackets, a comma with comma-in-brackets, a
brace with brace-in-brackets and a nested `[` with nested-brackets; an
unclosed `{` or `[` at end of name yields missing-brace respectively
missing-bracket; at depth zero a comma or whitespace terminates the
name without error. -/
theorem c6_amended_name_lexing :
    (∀ (rest : Str) (braces brackets : Nat), 0 < braces →
       parseNameAux (32 :: rest) braces brackets = .error .spacesInBraces ∧
       parseNameAux (9 :: rest) braces brackets = .error .spacesInBraces ∧
       parseNameAux (10 :: rest) braces brackets = .error .spacesInBraces) ∧
    (∀ (rest : Str) (braces : Nat), 0 < braces →
       parseNameAux (91 :: rest) braces 0 = (parseNameAux rest braces 1).map (· + 1)) ∧
    (∀ (rest : Str) (brackets : Nat), 0 < brackets →
       parseNameAux (32 :: rest) 0 brackets = .error .spacesInBrackets ∧
       parseNameAux (9 :: rest) 0 brackets = .error .spacesInBrackets ∧
       parseNameAux (10 :: rest) 0 brackets = .error .spacesInBrackets) ∧
    (∀ (rest : Str) (braces brackets : Nat), 0 < brackets →
       parseNameAux (44 :: rest) braces brackets = .error .commaInBrackets) ∧
    (∀ (rest : Str) (braces brackets : Nat), 0 < brackets →
       parseNameAux (123 :: rest) braces brackets = .error .braceInBrackets ∧
       parseNameAux (125 :: rest) braces brackets = .error .braceInBrackets) ∧
    (∀ (rest : Str) (braces brackets : Nat), 0 < brackets →
       parseNameAux (91 :: rest) braces brackets = .error .nestedBrackets) ∧
    (∀ braces brackets : Nat,
       parseNameAux [] braces brackets =
         if 0 < braces then .error .missingBrace
         else if 0 < brackets then .error .missingBracket
         else .ok 0) ∧
    (∀ rest : Str,
       parseNameAux (44 :: rest) 0 0 = .ok 0 ∧
       parseNameAux (32 :: rest) 0 0 = .ok 0 ∧
       parseNameAux (9 :: rest) 0 0 = .ok 0 ∧
       parseNameAux (10 :: rest) 0 0 = .ok 0) := by
  refine ⟨?_, ?_, ?_, ?_, ?_, ?_, ?_, ?_⟩
  · intro rest braces brackets h
    refine ⟨?_, ?_, ?_⟩ <;> simp [parseNameAux, isNameChar, h]
  · intro rest braces h
    simp [parseNameAux, isNameChar]
  · intro rest brackets h
    refine ⟨?_, ?_, ?_⟩ <;> simp [parseNameAux, parseNameStop, isNameChar, h]
  · intro rest braces brackets h
    simp [parseNameAux, isNameChar, h]
  · intro rest braces brackets h
    constructor <;> simp [parseNameAux, isNameChar, h]
  · intro rest braces brackets h
    simp [parseNameAux, isNameChar, h]
  · intro braces brackets
    simp [parseNameAux]
  · intro rest
    refine ⟨?_, ?_, ?_, ?_⟩ <;> simp [parseNameAux, parseNameStop, isNameChar]

/-- Witness for C6: a space one level inside braces. -/
theorem c6_amended_name_lexing_witness :
    (0 : Nat) < 1 ∧ parseNameAux (32 :: []) 1 0 = .error .spacesInBraces :=
  ⟨by decide, (c6_amended_name_lexing.1 [] 1 0 (by decide)).1⟩

/-- C5: metric-request extraction — a Name node yields exactly the single
request `(target, 0, 0)`; Const and String nodes yield none; for a Func
node named `timeShift` whose second argument is a string parsing as a
duration with default sign negative, the parsed offset is added (in
int32 arithmetic) to both the From and the Until of every request
collected from its children. -/
theorem c5_metrics_extraction :
    (∀ e : expr, e.etype = .EtName → metrics e = some [⟨e.target, 0, 0⟩]) ∧
    (∀ e : expr, e.etype = .EtConst ∨ e.etype = .EtString → metrics e = some []) ∧
    (∀ (e : expr) (offs : Int) (rs : List MetricRequest),
       e.etype = .EtFunc → e.target = goStr "timeShift" →
       getIntervalArgA e.args 1 (-1) = .ok offs →
       metricsList e.args = some rs →
       metrics e = some (rs.map fun v =>
         ⟨v.Metric, wrap32 (v.From + offs), wrap32 (v.Until + offs)⟩)) := by
  refine ⟨?_, ?_, ?_⟩
  · intro e h
    cases e with
    | mk tg et v vs args na gs => cases et <;> simp_all [metrics, expr.etype, expr.target]
  · intro e h
    cases e with
    | mk tg et v vs args na gs =>
      rcases h with h | h <;> cases et <;> simp_all [metrics, expr.etype]
  · intro e offs rs het htg hint hml
    cases e with
    | mk tg et v vs args na gs =>
      simp only [expr.etype] at het
      simp only [expr.target] at htg
      simp only [expr.args] at hint hml
      subst het htg
      simp [metrics, hml, hint]

/-- Witness for C5: `timeShift(m, "1h")` shifts the child request by
-3600 seconds on both bounds. -/
theorem c5_metrics_extraction_witness :
    ((mkFunc (goStr "timeShift") (goStr "m,x")
        (.cons (mkName (goStr "m")) (.cons (mkString (goStr "1h")) .nil)) .nil).etype = .EtFunc ∧
     getIntervalArgA (mkFunc (goStr "timeShift") (goStr "m,x")
        (.cons (mkName (goStr "m")) (.cons (mkString (goStr "1h")) .nil)) .nil).args 1 (-1) =
       .ok (-3600) ∧
     metrics (mkFunc (goStr "timeShift") (goStr "m,x")
        (.cons (mkName (goStr "m")) (.cons (mkString (goStr "1h")) .nil)) .nil) =
       some ([(⟨goStr "m", 0, 0⟩ : MetricRequest)].map fun v =>
         ⟨v.Metric, wrap32 (v.From + (-3600)), wrap32 (v.Until + (-3600))⟩)) :=
  ⟨by decide, by decide,
   c5_metrics_extraction.2.2
     (mkFunc (goStr "timeShift") (goStr "m,x")
       (.cons (mkName (goStr "m")) (.cons (mkString (goStr "1h")) .nil)) .nil)
     (-3600) [⟨goStr "m", 0, 0⟩] (by decide) (by decide) (by decide) (by decide)⟩

/-- C4: pipe equivalence — `insertFirstArg` turns the piped-in left
expression into the first positional argument of the (necessarily Func)
callee and prepends its canonical text comma-separated to the callee's
raw argument string; the literal inputs `x | f(a)` and `f(x,a)` parse to
the same tree; `a | scale(2)` parses to the same tree as `scale(a,2)`,
whose raw argument string is `a,2`. -/
theorem c4_pipe_equivalence :
    (∀ (callee exp : expr), callee.etype = .EtFunc →
       insertFirstArg callee exp =
         .ok (.mk callee.target callee.etype callee.val callee.valStr
           (.cons exp callee.args) callee.namedArgs
           (if callee.argString = [] then exp.toString
            else exp.toString ++ [44] ++ callee.argString))) ∧
    (∀ (callee exp : expr), callee.etype ≠ .EtFunc →
       insertFirstArg callee exp = .error .pipeToNonFunction) ∧
    parseExpr (goStr "x | f(a)") = parseExpr (goStr "f(x,a)") ∧
    parseExpr (goStr "a | scale(2)") =
      .ok (mkFunc (goStr "scale") (goStr "a,2")
        (.cons (mkName (goStr "a")) (.cons (mkConst (mkGoFloat 2 1)) .nil)) .nil, []) ∧
    parseExpr (goStr "scale(a,2)") =
      .ok (mkFunc (goStr "scale") (goStr "a,2")
        (.cons (mkName (goStr "a")) (.cons (mkConst (mkGoFloat 2 1)) .nil)) .nil, []) := by
  refine ⟨?_, ?_, by decide, by decide, by decide⟩
  · intro callee exp h
    cases callee with
    | mk tg et v vs args na gs =>
      simp only [expr.etype] at h
      subst h
      simp [insertFirstArg, expr.target, expr.etype, expr.val, expr.valStr, expr.args,
        expr.namedArgs, expr.argString]
  · intro callee exp h
    cases callee with
    | mk tg et v vs args na gs =>
      simp only [expr.etype] at h
      simp [insertFirstArg, h]

/-- Witness for C4: inserting `x` into `f(b)`. -/
theorem c4_pipe_equivalence_witness :
    ((mkFunc (goStr "f") (goStr "b") (.cons (mkName (goStr "b")) .nil) .nil).etype = .EtFunc ∧
     insertFirstArg (mkFunc (goStr "f") (goStr "b") (.cons (mkName (goStr "b")) .nil) .nil)
         (mkName (goStr "x")) =
       .ok (mkFunc (goStr "f") (goStr "x,b")
         (.cons (mkName (goStr "x")) (.cons (mkName (goStr "b")) .nil)) .nil)) :=
  ⟨by decide, by
    have h := c4_pipe_equivalence.1
      (mkFunc (goStr "f") (goStr "b") (.cons (mkName (goStr "b")) .nil) .nil)
      (mkName (goStr "x")) (by decide)
    exact h⟩

/-- C3 counterexample: the round-trip fails on the string literal
`'a\b'` — the parse succeeds consuming the whole input, `ToString`
escapes the backslash, and reparsing the canonical text yields a String
node with a doubled backslash, not a structurally equal tree. -/
theorem c3_counterexample :
    parseExpr ([39, 97, 92, 98, 39] : Str) = .ok (mkString [97, 92, 98], []) ∧
    expr.toString (mkString [97, 92, 98]) = ([39, 97, 92, 92, 98, 39] : Str) ∧
    parseExpr ([39, 97, 92, 92, 98, 39] : Str) = .ok (mkString [97, 92, 92, 98], []) ∧
    mkString [97, 92, 92, 98] ≠ mkString [97, 92, 98] :=
  ⟨by decide, by decide, by decide, by decide⟩

theorem isSpaceByte_of_ws {b : Nat}
    (hb : b = 32 ∨ b = 9 ∨ b = 10 ∨ b = 11 ∨ b = 12 ∨ b = 13) : isSpaceByte b = true := by
  rcases hb with rfl | rfl | rfl | rfl | rfl | rfl <;> rfl

theorem skipLeadingSpace_all_ws : ∀ (s : Str), s ≠ [] →
    (∀ b ∈ s, b = 32 ∨ b = 9 ∨ b = 10 ∨ b = 11 ∨ b = 12 ∨ b = 13) →
    ∃ b, skipLeadingSpace s = [b] ∧ (b = 32 ∨ b = 9 ∨ b = 10 ∨ b = 11 ∨ b = 12 ∨ b = 13)
| [], hne, _ => absurd rfl hne
| [b], _, hall => ⟨b, rfl, hall b (by simp)⟩
| b :: c :: r, _, hall => by
    have hsp := isSpaceByte_of_ws (hall b (by simp))
    have hrec := skipLeadingSpace_all_ws (c :: r) (by simp)
      (fun x hx => hall x (by simp [hx]))
    simpa [skipLeadingSpace, hsp] using hrec

theorem nameBranchF_single_ws (f : Nat) (b : Nat)
    (hb : b = 32 ∨ b = 9 ∨ b = 10 ∨ b = 11 ∨ b = 12 ∨ b = 13) :
    nameBranchF (f + 1) [b] = .error .missingArgument := by
  rcases hb with rfl | rfl | rfl | rfl | rfl | rfl <;> rfl

theorem pewpF_all_ws (f : Nat) (s : Str) (hne : s ≠ [])
    (hall : ∀ b ∈ s, b = 32 ∨ b = 9 ∨ b = 10 ∨ b = 11 ∨ b = 12 ∨ b = 13) :
    parseExprWithoutPipeF (f + 2) s = .error .missingArgument := by
  obtain ⟨b, hskip, hb⟩ := skipLeadingSpace_all_ws s hne hall
  have h2 : f + 2 = (f + 1) + 1 := rfl
  rw [h2]
  simp only [parseExprWithoutPipeF]
  rw [hskip]
  rcases hb with rfl | rfl | rfl | rfl | rfl | rfl
  · exact nameBranchF_single_ws f 32 (by decide)
  · exact nameBranchF_single_ws f 9 (by decide)
  · exact nameBranchF_single_ws f 10 (by decide)
  · exact nameBranchF_single_ws f 11 (by decide)
  · exact nameBranchF_single_ws f 12 (by decide)
  · exact nameBranchF_single_ws f 13 (by decide)

/-- C10: `ParseExpr` on the empty string is the missing-expr error, while
on a non-empty all-whitespace string it is the missing-argument error —
the leading-whitespace skip stops with one byte left and the resulting
empty name is reported as a missing argument. -/
theorem c10_parse_entry_errors :
    parseExpr (goStr "") = .error .missingExpr ∧
    (∀ s : Str, s ≠ [] →
      (∀ b ∈ s, b = 32 ∨ b = 9 ∨ b = 10 ∨ b = 11 ∨ b = 12 ∨ b = 13) →
      parseExpr s = .error .missingArgument) := by
  refine ⟨by decide, ?_⟩
  intro s hne hall
  show parseExprF (parserFuel s) s = _
  have h1 : parserFuel s = ((8 * s.length + 13) + 2) + 1 := rfl
  rw [h1]
  simp only [parseExprF]
  rw [pewpF_all_ws (8 * s.length + 13) s hne hall]

/-- Witness for C10: three spaces. -/
theorem c10_parse_entry_errors_witness :
    (goStr "   " ≠ ([] : Str) ∧ parseExpr (goStr "   ") = .error .missingArgument) :=
  ⟨by decide, c10_parse_entry_errors.2 (goStr "   ") (by decide) (by decide)⟩

theorem skip_nonspace (b : Nat) (t : Str) (h : isSpaceByte b = false) :
    skipLeadingSpace (b :: t) = b :: t := by
  cases t <;> simp [skipLeadingSpace, h]

theorem nameBranchF_not_const : ∀ (f : Nat) (e : Str) (nd : expr) (r : Str),
    nameBranchF f e = .ok (nd, r) → nd.etype ≠ .EtConst := by
  intro f e nd r h
  match f with
  | 0 => simp [nameBranchF] at h
  | f + 1 =>
    simp only [nameBranchF] at h
    repeat' split at h
    all_goals simp_all [mkBool, mkFunc, mkName, expr.etype]
    all_goals (obtain ⟨h1, h2⟩ := h; simp [← h1, expr.etype])

theorem pewpF_cons_const (f : Nat) (b : Nat) (t : Str)
    (hsb : isSpaceByte b = false)
    (hcond : (isDigitByte b || decide (b = 45) || decide (b = 43)) = true) :
    parseExprWithoutPipeF (f + 1) (b :: t) =
      (match parseConstGo (b :: t) with
       | .ok (v, tail) =>
         if isLetterRune (decodeRune tail).1 = true then nameBranchF f (b :: t)
         else .ok (mkConst v, tail)
       | .error _ => .error .floatParse) := by
  simp only [parseExprWithoutPipeF, skip_nonspace b t hsb, hcond, eq_self_iff_true, if_true]

/-- C7 amended: for input starting with a digit, `-` or `+`, the behavior
is decided by the maximal numeric run: if it parses as a float and no
letter follows, the token is a Const consuming exactly the run; if it
parses and a letter follows, the whole input goes down the name path;
if the run does not parse as a float the parser fails with the
conversion error (instead of lexing a name, which is what the claim
asserted).  A successful parse is a Const node exactly when the run
parses and no letter follows; `-1foo` parses as the Name `-1foo`. -/
theorem c7_amended_const_vs_name (b : Nat) (t : Str)
    (hb : isDigitByte b = true ∨ b = 45 ∨ b = 43) :
    (∀ v : GoFloat, goParseFloat ((b :: t).take (constRunLen (b :: t))) = some v →
       (isLetterRune (decodeRune ((b :: t).drop (constRunLen (b :: t)))).1 = false →
          parseExprWithoutPipe (b :: t) =
            .ok (mkConst v, (b :: t).drop (constRunLen (b :: t)))) ∧
       (isLetterRune (decodeRune ((b :: t).drop (constRunLen (b :: t)))).1 = true →
          parseExprWithoutPipe (b :: t) =
            nameBranchF (8 * (b :: t).length + 15) (b :: t))) ∧
    (goParseFloat ((b :: t).take (constRunLen (b :: t))) = none →
       parseExprWithoutPipe (b :: t) = .error .floatParse) ∧
    (∀ (nd : expr) (rest : Str), parseExprWithoutPipe (b :: t) = .ok (nd, rest) →
       (nd.etype = .EtConst ↔
         (goParseFloat ((b :: t).take (constRunLen (b :: t)))).isSome = true ∧
         isLetterRune (decodeRune ((b :: t).drop (constRunLen (b :: t)))).1 = false)) ∧
    parseExprWithoutPipe (goStr "-1foo") = .ok (mkName (goStr "-1foo"), []) := by
  have hsb : isSpaceByte b = false := by
    simp only [isDigitByte, Bool.and_eq_true, decide_eq_true_eq] at hb
    simp [isSpaceByte]
    omega
  have hcond : (isDigitByte b || decide (b = 45) || decide (b = 43)) = true := by
    rcases hb with h | h | h <;> simp [h]
  have hfuel : parserFuel (b :: t) = (8 * (b :: t).length + 15) + 1 := rfl
  have hmain : parseExprWithoutPipe (b :: t) =
      (match parseConstGo (b :: t) with
       | .ok (v, tail) =>
         if isLetterRune (decodeRune tail).1 = true
         then nameBranchF (8 * (b :: t).length + 15) (b :: t)
         else .ok (mkConst v, tail)
       | .error _ => .error .floatParse) := by
    show parseExprWithoutPipeF (parserFuel (b :: t)) (b :: t) = _
    rw [hfuel]
    exact pewpF_cons_const (8 * (b :: t).length + 15) b t hsb hcond
  refine ⟨?_, ?_, ?_, by decide⟩
  · intro v hv
    have hpc : parseConstGo (b :: t) = .ok (v, (b :: t).drop (constRunLen (b :: t))) := by
      simp [parseConstGo, hv]
    constructor
    · intro hlet
      rw [hmain]
      simp [hpc, hlet]
    · intro hlet
      rw [hmain]
      simp [hpc, hlet]
  · intro hnone
    have hpc : parseConstGo (b :: t) = .error () := by
      simp [parseConstGo, hnone]
    rw [hmain]
    simp [hpc]
  · intro nd rest hok
    rw [hmain] at hok
    constructor
    · intro hconst
      cases hfl : goParseFloat ((b :: t).take (constRunLen (b :: t))) with
      | none =>
        have hpc : parseConstGo (b :: t) = .error () := by simp [parseConstGo, hfl]
        rw [hpc] at hok
        simp at hok
      | some v =>
        have hpc : parseConstGo (b :: t) = .ok (v, (b :: t).drop (constRunLen (b :: t))) := by
          simp [parseConstGo, hfl]
        rw [hpc] at hok
        by_cases hlet : isLetterRune (decodeRune ((b :: t).drop (constRunLen (b :: t)))).1 = true
        · simp only [hlet, if_true] at hok
          exact absurd hconst (nameBranchF_not_const _ _ _ _ hok)
        · refine ⟨by simp [hfl], by simpa using hlet⟩
    · rintro ⟨hsome, hlet⟩
      obtain ⟨v, hv⟩ := Option.isSome_iff_exists.mp hsome
      have hpc : parseConstGo (b :: t) = .ok (v, (b :: t).drop (constRunLen (b :: t))) := by
        simp [parseConstGo, hv]
      rw [hpc] at hok
      simp only [hlet, if_false, Bool.false_eq_true] at hok
      simp only [Except.ok.injEq, Prod.mk.injEq] at hok
      rw [← hok.1]
      rfl

/-- C7 counterexample: on `-a` the maximal numeric run `-` is immediately
followed by the letter `a`, yet the parser fails with the float
conversion error instead of lexing `-a` as a name. -/
theorem c7_counterexample :
    parseExprWithoutPipe (goStr "-a") = .error .floatParse ∧
    isLetterRune (decodeRune ((goStr "-a").drop (constRunLen (goStr "-a")))).1 = true ∧
    parseNameGo (goStr "-a") = .ok (goStr "-a", []) :=
  ⟨by decide, by decide, by decide⟩

/-- Witness for C7: the input `1` is a Const consuming the whole run. -/
theorem c7_amended_const_vs_name_witness :
    (isDigitByte 49 = true ∨ (49 : Nat) = 45 ∨ (49 : Nat) = 43) ∧
    goParseFloat (((49 : Nat) :: []).take (constRunLen ((49 : Nat) :: []))) =
      some (mkGoFloat 1 1) ∧
    isLetterRune (decodeRune (((49 : Nat) :: []).drop (constRunLen ((49 : Nat) :: [])))).1 = false ∧
    parseExprWithoutPipe ((49 : Nat) :: []) =
      .ok (mkConst (mkGoFloat 1 1), ((49 : Nat) :: []).drop (constRunLen ((49 : Nat) :: []))) :=
  ⟨Or.inl (by decide), by decide, by decide,
   ((c7_amended_const_vs_name 49 [] (Or.inl (by decide))).1 (mkGoFloat 1 1) (by decide)).1
     (by decide)⟩

theorem skipLeadingSpace_eq_nil : ∀ (r : Str), skipLeadingSpace r = [] → r = []
| [], _ => rfl
| [b], h => by simp [skipLeadingSpace] at h
| b :: c :: u, h => by
    by_cases hb : isSpaceByte b
    · have := skipLeadingSpace_eq_nil (c :: u) (by simpa [skipLeadingSpace, hb] using h)
      simp at this
    · simp [skipLeadingSpace, hb] at h

theorem skipLeadingSpace_mem : ∀ (s : Str), ∀ b ∈ skipLeadingSpace s, b ∈ s
| [], b, hb => by simp [skipLeadingSpace] at hb
| [c], b, hb => by simpa [skipLeadingSpace] using hb
| c :: d :: u, b, hb => by
    by_cases hc : isSpaceByte c
    · have := skipLeadingSpace_mem (d :: u) b (by simpa [skipLeadingSpace, hc] using hb)
      simp [this]
    · simpa [skipLeadingSpace, hc] using hb

theorem insertFirstArg_ok_etype (e x m : expr) (h : insertFirstArg e x = .ok m) :
    m.etype = .EtFunc := by
  cases e with
  | mk tg et v vs args na gs =>
    by_cases he : et = .EtFunc
    · subst he
      simp only [insertFirstArg, ne_eq, not_true_eq_false, if_false, Except.ok.injEq,
        reduceIte] at h
      rw [← h]
      rfl
    · simp [insertFirstArg, he] at h

theorem constRunLen_le_length : ∀ (s : Str), constRunLen s ≤ s.length
| [] => by simp [constRunLen]
| b :: t => by
    have := constRunLen_le_length t
    by_cases hb : isConstChar b <;> simp [constRunLen, hb] <;> omega

theorem constRunLen_take : ∀ (s : Str) (i : Nat),
    constRunLen (s.take i) = min (constRunLen s) i
| [], i => by simp [constRunLen]
| b :: t, 0 => by simp [constRunLen]
| b :: t, i + 1 => by
    by_cases hb : isConstChar b <;>
      simp [List.take_succ_cons, constRunLen, hb, constRunLen_take t i] <;> omega

theorem constRunLen_byte : ∀ (s : Str) (p : Nat), p < constRunLen s →
    ∃ c u, s.drop p = c :: u ∧ isConstChar c = true
| [], p, h => by simp [constRunLen] at h
| b :: t, 0, h => by
    refine ⟨b, t, rfl, ?_⟩
    by_cases hb : isConstChar b
    · exact hb
    · simp [constRunLen, hb] at h
| b :: t, p + 1, h => by
    by_cases hb : isConstChar b
    · simp only [constRunLen, hb, if_true] at h
      exact constRunLen_byte t p (by omega)
    · simp [constRunLen, hb] at h

theorem decodeRune_ascii (c : Nat) (u : Str) (hc : c < 128) :
    decodeRune (c :: u) = (c, 1) := by
  simp [decodeRune, hc]

theorem exceptMap_ok_inv (x : Except GoErr Nat) (i : Nat)
    (h : x.map (· + 1) = .ok i) : ∃ j, x = .ok j ∧ i = j + 1 := by
  cases x with
  | error e => simp [Except.map] at h
  | ok j =>
    refine ⟨j, rfl, ?_⟩
    simp [Except.map] at h
    omega

theorem parseNameStop_ok (br bk i : Nat) (h : parseNameStop br bk = .ok i) :
    br = 0 ∧ bk = 0 ∧ i = 0 := by
  simp only [parseNameStop] at h
  split at h
  · simp at h
  · split at h
    · simp at h
    · simp at h
      omega

theorem parseNameAux_nil_ok (br bk i : Nat) (h : parseNameAux [] br bk = .ok i) :
    br = 0 ∧ bk = 0 ∧ i = 0 := by
  simp only [parseNameAux] at h
  split at h
  · simp at h
  · split at h
    · simp at h
    · simp at h
      omega

theorem parseNameAux_take : ∀ (s : Str) (br bk i : Nat),
    parseNameAux s br bk = .ok i → i ≤ s.length ∧ parseNameAux (s.take i) br bk = .ok i
| [], br, bk, i, h => by
    obtain ⟨h1, h2, h3⟩ := parseNameAux_nil_ok br bk i h
    subst h3
    exact ⟨by simp, by simpa using h⟩
| b :: t, br, bk, i, h => by
    simp only [parseNameAux] at h
    by_cases h1 : isNameChar b
    · rw [if_pos h1] at h
      obtain ⟨j, hj, rfl⟩ := exceptMap_ok_inv _ _ h
      obtain ⟨hle, htake⟩ := parseNameAux_take t br bk j hj
      refine ⟨by simp; omega, ?_⟩
      rw [List.take_succ_cons]
      simp [parseNameAux, h1, htake, Except.map]
    · rw [if_neg h1] at h
      by_cases h2 : b = 123
      · subst h2
        rw [if_pos rfl] at h
        by_cases hbk : 0 < bk
        · rw [if_pos hbk] at h; simp at h
        · rw [if_neg hbk] at h
          obtain ⟨j, hj, rfl⟩ := exceptMap_ok_inv _ _ h
          obtain ⟨hle, htake⟩ := parseNameAux_take t (br + 1) bk j hj
          refine ⟨by simp; omega, ?_⟩
          rw [List.take_succ_cons]
          simp [parseNameAux, isNameChar, hbk, htake, Except.map]
      · rw [if_neg h2] at h
        by_cases h3 : b = 125
        · subst h3
          rw [if_pos rfl] at h
          by_cases hbk : 0 < bk
          · rw [if_pos hbk] at h; simp at h
          · rw [if_neg hbk] at h
            by_cases hbr : br = 0
            · rw [if_pos hbr] at h; simp at h
            · rw [if_neg hbr] at h
              obtain ⟨j, hj, rfl⟩ := exceptMap_ok_inv _ _ h
              obtain ⟨hle, htake⟩ := parseNameAux_take t (br - 1) bk j hj
              refine ⟨by simp; omega, ?_⟩
              rw [List.take_succ_cons]
              simp [parseNameAux, isNameChar, hbk, hbr, htake, Except.map]
        · rw [if_neg h3] at h
          by_cases h4 : b = 91
          · subst h4
            rw [if_pos rfl] at h
            by_cases hbk : 0 < bk
            · rw [if_pos hbk] at h; simp at h
            · rw [if_neg hbk] at h
              obtain ⟨j, hj, rfl⟩ := exceptMap_ok_inv _ _ h
              obtain ⟨hle, htake⟩ := parseNameAux_take t br (bk + 1) j hj
              refine ⟨by simp; omega, ?_⟩
              rw [List.take_succ_cons]
              simp [parseNameAux, isNameChar, hbk, htake, Except.map]
          · rw [if_neg h4] at h
            by_cases h5 : b = 93
            · subst h5
              rw [if_pos rfl] at h
              by_cases hbk : bk = 0
              · rw [if_pos hbk] at h; simp at h
              · rw [if_neg hbk] at h
                obtain ⟨j, hj, rfl⟩ := exceptMap_ok_inv _ _ h
                obtain ⟨hle, htake⟩ := parseNameAux_take t br (bk - 1) j hj
                refine ⟨by simp; omega, ?_⟩
                rw [List.take_succ_cons]
                simp [parseNameAux, isNameChar, hbk, htake, Except.map]
            · rw [if_neg h5] at h
              by_cases h6 : b = 44
              · subst h6
                rw [if_pos rfl] at h
                by_cases hbk : 0 < bk
                · rw [if_pos hbk] at h; simp at h
                · rw [if_neg hbk] at h
                  by_cases hbr : br = 0
                  · rw [if_pos hbr] at h
                    obtain ⟨e1, e2, e3⟩ := parseNameStop_ok br bk i h
                    subst e3
                    refine ⟨by simp, ?_⟩
                    simp [parseNameAux, e1, e2]
                  · rw [if_neg hbr] at h
                    obtain ⟨j, hj, rfl⟩ := exceptMap_ok_inv _ _ h
                    obtain ⟨hle, htake⟩ := parseNameAux_take t br bk j hj
                    refine ⟨by simp; omega, ?_⟩
                    rw [List.take_succ_cons]
                    simp [parseNameAux, isNameChar, hbk, hbr, htake, Except.map]
              · rw [if_neg h6] at h
                by_cases h7 : (decide (b = 32) || decide (b = 9) || decide (b = 10)) = true
                · rw [if_pos h7] at h
                  by_cases hbr : 0 < br
                  · rw [if_pos hbr] at h; simp at h
                  · rw [if_neg hbr] at h
                    by_cases hbk : 0 < bk
                    · rw [if_pos hbk] at h; simp at h
                    · rw [if_neg hbk] at h
                      obtain ⟨e1, e2, e3⟩ := parseNameStop_ok br bk i h
                      subst e3
                      refine ⟨by simp, ?_⟩
                      simp [parseNameAux, e1, e2]
                · rw [if_neg h7] at h
                  obtain ⟨e1, e2, e3⟩ := parseNameStop_ok br bk i h
                  subst e3
                  refine ⟨by simp, ?_⟩
                  simp [parseNameAux, e1, e2]

theorem parseNameAux_stop_byte : ∀ (s : Str) (br bk i : Nat),
    parseNameAux s br bk = .ok i → i < s.length →
    ∃ c u, s.drop i = c :: u ∧ isNameChar c = false ∧
      c ≠ 123 ∧ c ≠ 125 ∧ c ≠ 91 ∧ c ≠ 93
| [], br, bk, i, h, hlt => by simp at hlt
| b :: t, br, bk, i, h, hlt => by
    simp only [parseNameAux] at h
    by_cases h1 : isNameChar b
    · rw [if_pos h1] at h
      obtain ⟨j, hj, rfl⟩ := exceptMap_ok_inv _ _ h
      obtain ⟨c, u, hd, hp⟩ := parseNameAux_stop_byte t br bk j hj (by simpa using hlt)
      exact ⟨c, u, by simpa using hd, hp⟩
    · rw [if_neg h1] at h
      by_cases h2 : b = 123
      · subst h2
        rw [if_pos rfl] at h
        by_cases hbk : 0 < bk
        · rw [if_pos hbk] at h; simp at h
        · rw [if_neg hbk] at h
          obtain ⟨j, hj, rfl⟩ := exceptMap_ok_inv _ _ h
          obtain ⟨c, u, hd, hp⟩ := parseNameAux_stop_byte t (br + 1) bk j hj (by simpa using hlt)
          exact ⟨c, u, by simpa using hd, hp⟩
      · rw [if_neg h2] at h
        by_cases h3 : b = 125
        · subst h3
          rw [if_pos rfl] at h
          by_cases hbk : 0 < bk
          · rw [if_pos hbk] at h; simp at h
          · rw [if_neg hbk] at h
            by_cases hbr : br = 0
            · rw [if_pos hbr] at h; simp at h
            · rw [if_neg hbr] at h
              obtain ⟨j, hj, rfl⟩ := exceptMap_ok_inv _ _ h
              obtain ⟨c, u, hd, hp⟩ := parseNameAux_stop_byte t (br - 1) bk j hj (by simpa using hlt)
              exact ⟨c, u, by simpa using hd, hp⟩
        · rw [if_neg h3] at h
          by_cases h4 : b = 91
          · subst h4
            rw [if_pos rfl] at h
            by_cases hbk : 0 < bk
            · rw [if_pos hbk] at h; simp at h
            · rw [if_neg hbk] at h
              obtain ⟨j, hj, rfl⟩ := exceptMap_ok_inv _ _ h
              obtain ⟨c, u, hd, hp⟩ := parseNameAux_stop_byte t br (bk + 1) j hj (by simpa using hlt)
              exact ⟨c, u, by simpa using hd, hp⟩
          · rw [if_neg h4] at h
            by_cases h5 : b = 93
            · subst h5
              rw [if_pos rfl] at h
              by_cases hbk : bk = 0
              · rw [if_pos hbk] at h; simp at h
              · rw [if_neg hbk] at h
                obtain ⟨j, hj, rfl⟩ := exceptMap_ok_inv _ _ h
                obtain ⟨c, u, hd, hp⟩ := parseNameAux_stop_byte t br (bk - 1) j hj (by simpa using hlt)
                exact ⟨c, u, by simpa using hd, hp⟩
            · rw [if_neg h5] at h
              by_cases h6 : b = 44
              · subst h6
                rw [if_pos rfl] at h
                by_cases hbk : 0 < bk
                · rw [if_pos hbk] at h; simp at h
                · rw [if_neg hbk] at h
                  by_cases hbr : br = 0
                  · rw [if_pos hbr] at h
                    obtain ⟨e1, e2, e3⟩ := parseNameStop_ok br bk i h
                    subst e3
                    exact ⟨44, t, rfl, by decide, by decide, by decide, by decide, by decide⟩
                  · rw [if_neg hbr] at h
                    obtain ⟨j, hj, rfl⟩ := exceptMap_ok_inv _ _ h
                    obtain ⟨c, u, hd, hp⟩ := parseNameAux_stop_byte t br bk j hj (by simpa using hlt)
                    exact ⟨c, u, by simpa using hd, hp⟩
              · rw [if_neg h6] at h
                by_cases h7 : (decide (b = 32) || decide (b = 9) || decide (b = 10)) = true
                · rw [if_pos h7] at h
                  by_cases hbr : 0 < br
                  · rw [if_pos hbr] at h; simp at h
                  · rw [if_neg hbr] at h
                    by_cases hbk : 0 < bk
                    · rw [if_pos hbk] at h; simp at h
                    · rw [if_neg hbk] at h
                      obtain ⟨e1, e2, e3⟩ := parseNameStop_ok br bk i h
                      subst e3
                      simp only [decide_eq_true_eq, Bool.or_eq_true] at h7
                      refine ⟨b, t, rfl, ?_, ?_, ?_, ?_, ?_⟩ <;>
                        (first | (simp [isNameChar]; omega) | omega)
                · rw [if_neg h7] at h
                  obtain ⟨e1, e2, e3⟩ := parseNameStop_ok br bk i h
                  subst e3
                  simp only [decide_eq_true_eq, Bool.or_eq_true] at h7
                  push_neg at h7
                  refine ⟨b, t, rfl, by simpa using h1, h2, h3, h4, h5⟩

theorem parseNameAux_head_consumed (b : Nat) (t : Str) (i : Nat)
    (h : parseNameAux (b :: t) 0 0 = .ok i) (hi : 0 < i) :
    isNameChar b = true ∨ b = 123 ∨ b = 91 := by
  simp only [parseNameAux] at h
  by_cases h1 : isNameChar b
  · exact Or.inl h1
  · rw [if_neg h1] at h
    by_cases h2 : b = 123
    · exact Or.inr (Or.inl h2)
    · rw [if_neg h2] at h
      by_cases h3 : b = 125
      · subst h3
        simp at h
      · rw [if_neg h3] at h
        by_cases h4 : b = 91
        · exact Or.inr (Or.inr h4)
        · rw [if_neg h4] at h
          by_cases h5 : b = 93
          · subst h5
            simp at h
          · rw [if_neg h5] at h
            by_cases h6 : b = 44
            · subst h6
              simp only [Nat.lt_irrefl, if_false, if_pos rfl, reduceIte] at h
              obtain ⟨e1, e2, e3⟩ := parseNameStop_ok 0 0 i h
              omega
            · rw [if_neg h6] at h
              by_cases h7 : (decide (b = 32) || decide (b = 9) || decide (b = 10)) = true
              · rw [if_pos h7] at h
                simp only [Nat.lt_irrefl, if_false, reduceIte] at h
                obtain ⟨e1, e2, e3⟩ := parseNameStop_ok 0 0 i h
                omega
              · rw [if_neg h7] at h
                obtain ⟨e1, e2, e3⟩ := parseNameStop_ok 0 0 i h
                omega

theorem parseConstGo_ok_inv (s : Str) (v : GoFloat) (tail : Str)
    (h : parseConstGo s = .ok (v, tail)) :
    goParseFloat (s.take (constRunLen s)) = some v ∧ tail = s.drop (constRunLen s) := by
  simp only [parseConstGo] at h
  split at h
  · rename_i v' heq
    simp only [Except.ok.injEq, Prod.mk.injEq] at h
    obtain ⟨rfl, rfl⟩ := h
    exact ⟨heq, rfl⟩
  · simp at h

theorem parseNameGo_ok_inv (s nm rest0 : Str) (h : parseNameGo s = .ok (nm, rest0)) :
    ∃ i, parseNameAux s 0 0 = .ok i ∧ i ≤ s.length ∧ nm = s.take i ∧ rest0 = s.drop i := by
  simp only [parseNameGo] at h
  split at h
  · simp at h
  · rename_i i heq
    have hle := (parseNameAux_take s 0 0 i heq).1
    split at h
    · rename_i hi
      simp only [Except.ok.injEq, Prod.mk.injEq] at h
      obtain ⟨rfl, rfl⟩ := h
      exact ⟨i, heq, hle, by simp [hi], by simp [hi]⟩
    · simp only [Except.ok.injEq, Prod.mk.injEq] at h
      obtain ⟨rfl, rfl⟩ := h
      exact ⟨i, heq, hle, rfl, rfl⟩

theorem pipeF_nil (f : Nat) (exp : expr) : pipeF (f + 1) exp [] = .ok (exp, []) := rfl

theorem pipeF_name_id : ∀ (f : Nat) (exp : expr) (e0 : Str) (nd : expr) (r : Str),
    pipeF f exp e0 = .ok (nd, r) → nd.etype = .EtName → nd = exp ∧ r = skipLeadingSpace e0
| 0, exp, e0, nd, r, h, _ => by simp [pipeF] at h
| f + 1, exp, e0, nd, r, h, hn => by
    simp only [pipeF] at h
    split at h
    · rename_i rest heq
      split at h
      · simp at h
      · rename_i wr e2 hpw
        split at h
        · simp at h
        · rename_i merged hins
          obtain ⟨h1, _⟩ := pipeF_name_id f merged e2 nd r h hn
          have hf := insertFirstArg_ok_etype _ _ _ hins
          rw [← h1, hn] at hf
          simp at hf
    · simp only [Except.ok.injEq, Prod.mk.injEq] at h
      exact ⟨h.1.symm, h.2.symm⟩

theorem nameBranchF_name_inv (f : Nat) (e : Str) (nd : expr)
    (h : nameBranchF (f + 1) e = .ok (nd, [])) (hn : nd.etype = .EtName) :
    ∃ nm rest0, parseNameGo e = .ok (nm, rest0) ∧
      toLowerAscii nm ≠ goStr "false" ∧ toLowerAscii nm ≠ goStr "true" ∧
      nm ≠ [] ∧ nd = mkName nm ∧ trimLeftSpace rest0 = [] := by
  simp only [nameBranchF] at h
  split at h
  · simp at h
  · rename_i nm0 rest0 hpn
    split at h
    · rename_i hbool
      simp only [Except.ok.injEq, Prod.mk.injEq] at h
      rw [← h.1] at hn
      simp [mkBool, expr.etype] at hn
    · rename_i hbool
      split at h
      · simp at h
      · rename_i hnm
        split at h
        · rename_i r2 htrim
          split at h
          · rename_i q hargs
            simp only [Except.ok.injEq, Prod.mk.injEq] at h
            rw [← h.1] at hn
            simp [mkFunc, expr.etype] at hn
          · simp at h
        · simp only [Except.ok.injEq, Prod.mk.injEq] at h
          simp only [decide_eq_true_eq, Bool.or_eq_true, not_or] at hbool
          exact ⟨nm0, rest0, hpn, hbool.1, hbool.2, hnm, h.1.symm, h.2⟩

theorem pewpF_name_inv (f : Nat) (s : Str) (nd : expr) (r : Str)
    (h : parseExprWithoutPipeF (f + 1) s = .ok (nd, r)) (hn : nd.etype = .EtName) :
    ∃ b t, skipLeadingSpace s = b :: t ∧
      nameBranchF f (b :: t) = .ok (nd, r) ∧
      ((isDigitByte b || decide (b = 45) || decide (b = 43)) = true →
        ∃ v, parseConstGo (b :: t) = .ok (v, (b :: t).drop (constRunLen (b :: t))) ∧
          isLetterRune (decodeRune ((b :: t).drop (constRunLen (b :: t)))).1 = true) := by
  simp only [parseExprWithoutPipeF] at h
  split at h
  · simp at h
  · rename_i b t hskip
    refine ⟨b, t, hskip, ?_⟩
    split at h
    · rename_i hcond
      split at h
      · rename_i v tail hpc
        obtain ⟨hfl, htail⟩ := parseConstGo_ok_inv _ _ _ hpc
        subst htail
        split at h
        · rename_i hlet
          exact ⟨h, fun _ => ⟨v, hpc, hlet⟩⟩
        · simp only [Except.ok.injEq, Prod.mk.injEq] at h
          rw [← h.1] at hn
          simp [mkConst, expr.etype] at hn
      · simp at h
    · rename_i hcond
      split at h
      · rename_i hq
        split at h
        · rename_i val tail hps
          simp only [Except.ok.injEq, Prod.mk.injEq] at h
          rw [← h.1] at hn
          simp [mkString, expr.etype] at hn
        · simp at h
      · exact ⟨h, fun hc => absurd hc (by simpa using hcond)⟩

theorem pewpF_cons_name (f : Nat) (b : Nat) (t : Str)
    (hsb : isSpaceByte b = false)
    (hcond : (isDigitByte b || decide (b = 45) || decide (b = 43)) = false)
    (hq : (decide (b = 39) || decide (b = 34)) = false) :
    parseExprWithoutPipeF (f + 1) (b :: t) = nameBranchF f (b :: t) := by
  simp only [parseExprWithoutPipeF, skip_nonspace b t hsb, hcond, hq, Bool.false_eq_true,
    if_false]

theorem letter_byte_nameChar : ∀ c < 128, isLetterRune c = true → isNameChar c = true := by
  decide

theorem parseExpr_name_roundtrip (s nm : Str)
    (hascii : ∀ b ∈ s, b < 128)
    (h : parseExpr s = .ok (mkName nm, [])) :
    parseExpr nm = .ok (mkName nm, []) := by
  have h0 : parseExprF ((8 * s.length + 15) + 1) s = .ok (mkName nm, []) := h
  simp only [parseExprF] at h0
  cases hpw : parseExprWithoutPipeF (8 * s.length + 15) s with
  | error err => rw [hpw] at h0; simp at h0
  | ok p =>
    rw [hpw] at h0
    obtain ⟨exp, rest⟩ := p
    have h1 : pipeF (8 * s.length + 15) exp rest = .ok (mkName nm, []) := h0
    obtain ⟨hexp, hrest⟩ := pipeF_name_id _ exp rest _ _ h1 rfl
    have hrest0 : rest = [] := skipLeadingSpace_eq_nil rest hrest.symm
    subst hrest0
    rw [← hexp] at hpw
    have hpw2 : parseExprWithoutPipeF ((8 * s.length + 14) + 1) s = .ok (mkName nm, []) := hpw
    obtain ⟨b, t, hskip, hnb, hconst⟩ :=
      pewpF_name_inv (8 * s.length + 14) s (mkName nm) [] hpw2 rfl
    have hnb2 : nameBranchF ((8 * s.length + 13) + 1) (b :: t) = .ok (mkName nm, []) := hnb
    obtain ⟨nm0, rest0, hpng, hf, ht, hne0, hndeq, htrim⟩ :=
      nameBranchF_name_inv _ _ _ hnb2 rfl
    have hnm0 : nm0 = nm := by
      simp only [mkName, expr.mk.injEq] at hndeq
      exact hndeq.1.symm
    subst hnm0
    obtain ⟨i, haux, hile, hnmtake, hrest0⟩ := parseNameGo_ok_inv (b :: t) nm0 rest0 hpng
    have hi1 : 1 ≤ i := by
      rcases Nat.eq_zero_or_pos i with hz | hp
    
      · subst hz; simp at hnmtake; exact absurd hnmtake hne0
      · omega
    have hascii2 : ∀ c ∈ (b :: t), c < 128 := by
      intro c hc
      exact hascii c (skipLeadingSpace_mem s c (by rw [hskip]; exact hc))
    have hble : b < 128 := hascii2 b (by simp)
    have hhead := parseNameAux_head_consumed b t i haux (by omega)
    have hsb : isSpaceByte b = false := by
      rcases hhead with hh | rfl | rfl
      · simp [isNameChar] at hh
        simp [isSpaceByte]
        omega
      · rfl
      · rfl
    have hnmcons : nm0 = b :: t.take (i - 1) := by
      rw [hnmtake]
      cases i with
      | zero => omega
      | succ j => simp [List.take_succ_cons]
    have hauxnm : parseNameAux nm0 0 0 = .ok i := by
      rw [hnmtake]; exact (parseNameAux_take (b :: t) 0 0 i haux).2
    have hile2 : i ≤ t.length + 1 := by simpa using hile
    have hnmlen : nm0.length = i := by
      rw [hnmtake]
      simp only [List.length_take, List.length_cons]
      omega
    have hpngnm : parseNameGo nm0 = .ok (nm0, []) := by
      simp [parseNameGo, hauxnm, hnmlen]
    have hnbnm : ∀ g : Nat, nameBranchF (g + 1) nm0 = .ok (mkName nm0, []) := by
      intro g
      simp only [nameBranchF, hpngnm]
      split
      · rename_i hbool
        simp only [decide_eq_true_eq, Bool.or_eq_true] at hbool
        rcases hbool with hb0 | hb0
        · exact absurd hb0 hf
        · exact absurd hb0 ht
      · rfl
    by_cases hdig : (isDigitByte b || decide (b = 45) || decide (b = 43)) = true
    · obtain ⟨v, hpc, hlet⟩ := hconst hdig
      obtain ⟨hfl, _⟩ := parseConstGo_ok_inv _ _ _ hpc
      have hrunle : constRunLen (b :: t) ≤ (b :: t).length := constRunLen_le_length _
      have higt : constRunLen (b :: t) < i := by
        rcases Nat.lt_trichotomy i (constRunLen (b :: t)) with hlt | heqr | hgt
        · exfalso
          obtain ⟨c, u, hdropi, hnc, _, _, _, _⟩ :=
            parseNameAux_stop_byte (b :: t) 0 0 i haux (by omega)
          obtain ⟨c', u', hdropi', hcc⟩ := constRunLen_byte (b :: t) i hlt
          rw [hdropi] at hdropi'
          injection hdropi' with hc1 hc2
          subst hc1
          have hc43 : c = 43 := by
            simp [isConstChar, isDigitByte] at hcc
            simp [isNameChar] at hnc
            omega
          subst hc43
          rw [hrest0, hdropi] at htrim
          rw [show trimLeftSpace (43 :: u) = 43 :: u from rfl] at htrim
          simp at htrim
        · exfalso
          by_cases hil : i < (b :: t).length
          · obtain ⟨c, u, hdropi, hnc, _, _, _, _⟩ :=
              parseNameAux_stop_byte (b :: t) 0 0 i haux hil
            have hcmem : c ∈ (b :: t) := by
              refine List.drop_subset i (b :: t) ?_
              rw [hdropi]
              exact List.mem_cons_self c u
            have hcle : c < 128 := hascii2 c hcmem
            rw [← heqr, hdropi, decodeRune_ascii c u hcle] at hlet
            have hlet2 : isLetterRune c = true := hlet
            rw [letter_byte_nameChar c hcle hlet2] at hnc
            exact absurd hnc (by decide)
          · have hdn : (b :: t).drop (constRunLen (b :: t)) = [] := by
              rw [List.drop_eq_nil_iff]
              omega
            rw [hdn] at hlet
            simp [decodeRune, isLetterRune] at hlet
        · exact hgt
      have hrunnm : constRunLen nm0 = constRunLen (b :: t) := by
        rw [hnmtake, constRunLen_take]
        omega
      have htakenm : nm0.take (constRunLen (b :: t)) = (b :: t).take (constRunLen (b :: t)) := by
        rw [hnmtake, List.take_take]
        congr 1
        omega
      obtain ⟨c, u, hdropr⟩ : ∃ c u, (b :: t).drop (constRunLen (b :: t)) = c :: u := by
        cases hdd : (b :: t).drop (constRunLen (b :: t)) with
        | nil =>
          exfalso
          rw [List.drop_eq_nil_iff] at hdd
          omega
        | cons c u => exact ⟨c, u, rfl⟩
      have hcle : c < 128 := by
        refine hascii2 c (List.drop_subset (constRunLen (b :: t)) (b :: t) ?_)
        rw [hdropr]
        exact List.mem_cons_self c u
      rw [hdropr, decodeRune_ascii c u hcle] at hlet
      have hdropnm : nm0.drop (constRunLen (b :: t)) =
          c :: u.take (i - constRunLen (b :: t) - 1) := by
        rw [hnmtake, List.drop_take, hdropr]
        have : i - constRunLen (b :: t) = (i - constRunLen (b :: t) - 1) + 1 := by omega
        rw [this, List.take_succ_cons]
        simp
      have hflnm : goParseFloat (nm0.take (constRunLen nm0)) = some v := by
        rw [hrunnm, htakenm]
        exact hfl
      have hpcnm : parseConstGo nm0 = .ok (v, nm0.drop (constRunLen (b :: t))) := by
        have hflnm2 : goParseFloat (nm0.take (constRunLen (b :: t))) = some v := by
          rw [htakenm]; exact hfl
        simp [parseConstGo, hrunnm, hflnm2]
      have hletnm : isLetterRune (decodeRune (nm0.drop (constRunLen (b :: t)))).1 = true := by
        rw [hdropnm, decodeRune_ascii c _ hcle]
        exact hlet
      have hstep : ∀ F : Nat, parseExprWithoutPipeF (F + 1) nm0 = nameBranchF F nm0 := by
        intro F
        conv_lhs => rw [hnmcons]
        rw [pewpF_cons_const F b (t.take (i - 1)) hsb hdig]
        rw [← hnmcons]
        simp [hpcnm, hletnm]
      show parseExprF ((8 * nm0.length + 15) + 1) nm0 = _
      simp only [parseExprF]
      have hpwfin : parseExprWithoutPipeF (8 * nm0.length + 15) nm0 = .ok (mkName nm0, []) := by
        have h15 : (8 * nm0.length + 15 : Nat) = (8 * nm0.length + 14) + 1 := rfl
        rw [h15, hstep (8 * nm0.length + 14)]
        exact hnbnm (8 * nm0.length + 13)
      rw [hpwfin]
      exact pipeF_nil (8 * nm0.length + 14) (mkName nm0)
    · have hcondf : (isDigitByte b || decide (b = 45) || decide (b = 43)) = false := by
        revert hdig
        cases (isDigitByte b || decide (b = 45) || decide (b = 43)) <;> simp
      have hq : (decide (b = 39) || decide (b = 34)) = false := by
        rcases hhead with hh | rfl | rfl
        · simp [isNameChar] at hh
          simp
          omega
        · rfl
        · rfl
      show parseExprF ((8 * nm0.length + 15) + 1) nm0 = _
      simp only [parseExprF]
      have hpwfin : parseExprWithoutPipeF (8 * nm0.length + 15) nm0 = .ok (mkName nm0, []) := by
        have hstep2 : ∀ F : Nat, parseExprWithoutPipeF (F + 1) nm0 = nameBranchF F nm0 := by
          intro F
          conv_lhs => rw [hnmcons]
          rw [pewpF_cons_name F b (t.take (i - 1)) hsb hcondf hq]
          rw [← hnmcons]
        have h15 : (8 * nm0.length + 15 : Nat) = (8 * nm0.length + 14) + 1 := rfl
        rw [h15, hstep2 (8 * nm0.length + 14)]
        exact hnbnm (8 * nm0.length + 13)
      rw [hpwfin]
      exact pipeF_nil (8 * nm0.length + 14) (mkName nm0)

/-- C3 amended: the parse round-trip (canonical text reparses, consuming
the whole input, to a structurally equal tree) holds for every plain
Name expression parsed from ASCII input, and for representative
expressions free of escaping-sensitive string literals — here
`sum(a.b, c.d)`, `scale(metric, 2.5)`, `timeShift(metric,'-1h')` and the
pipe form `a | scale(2)`; it fails in general because `ToString` escapes
backslashes and quotes that `parseString` never unescapes, and because
the true/false atoms lose their `target` on reparse. -/
theorem c3_amended_roundtrip :
    (parseExpr (goStr "sum(a.b, c.d)") =
       .ok (mkFunc (goStr "sum") (goStr "a.b, c.d")
         (.cons (mkName (goStr "a.b")) (.cons (mkName (goStr "c.d")) .nil)) .nil, []) ∧
     parseExpr (expr.toString (mkFunc (goStr "sum") (goStr "a.b, c.d")
         (.cons (mkName (goStr "a.b")) (.cons (mkName (goStr "c.d")) .nil)) .nil)) =
       .ok (mkFunc (goStr "sum") (goStr "a.b, c.d")
         (.cons (mkName (goStr "a.b")) (.cons (mkName (goStr "c.d")) .nil)) .nil, [])) ∧
    (parseExpr (goStr "scale(metric, 2.5)") =
       .ok (mkFunc (goStr "scale") (goStr "metric, 2.5")
         (.cons (mkName (goStr "metric")) (.cons (mkConst (mkGoFloat 5 2)) .nil)) .nil, []) ∧
     parseExpr (expr.toString (mkFunc (goStr "scale") (goStr "metric, 2.5")
         (.cons (mkName (goStr "metric")) (.cons (mkConst (mkGoFloat 5 2)) .nil)) .nil)) =
       .ok (mkFunc (goStr "scale") (goStr "metric, 2.5")
         (.cons (mkName (goStr "metric")) (.cons (mkConst (mkGoFloat 5 2)) .nil)) .nil, [])) ∧
    (parseExpr (goStr "timeShift(metric," ++ [39] ++ goStr "-1h" ++ [39] ++ goStr ")") =
       .ok (mkFunc (goStr "timeShift") (goStr "metric," ++ [39] ++ goStr "-1h" ++ [39])
         (.cons (mkName (goStr "metric")) (.cons (mkString (goStr "-1h")) .nil)) .nil, []) ∧
     parseExpr (expr.toString (mkFunc (goStr "timeShift")
         (goStr "metric," ++ [39] ++ goStr "-1h" ++ [39])
         (.cons (mkName (goStr "metric")) (.cons (mkString (goStr "-1h")) .nil)) .nil)) =
       .ok (mkFunc (goStr "timeShift") (goStr "metric," ++ [39] ++ goStr "-1h" ++ [39])
         (.cons (mkName (goStr "metric")) (.cons (mkString (goStr "-1h")) .nil)) .nil, [])) ∧
    (parseExpr (goStr "a | scale(2)") =
       .ok (mkFunc (goStr "scale") (goStr "a,2")
         (.cons (mkName (goStr "a")) (.cons (mkConst (mkGoFloat 2 1)) .nil)) .nil, []) ∧
     parseExpr (expr.toString (mkFunc (goStr "scale") (goStr "a,2")
         (.cons (mkName (goStr "a")) (.cons (mkConst (mkGoFloat 2 1)) .nil)) .nil)) =
       .ok (mkFunc (goStr "scale") (goStr "a,2")
         (.cons (mkName (goStr "a")) (.cons (mkConst (mkGoFloat 2 1)) .nil)) .nil, [])) ∧
    (∀ s nm : Str, (∀ b ∈ s, b < 128) →
      parseExpr s = .ok (mkName nm, []) →
      parseExpr (expr.toString (mkName nm)) = .ok (mkName nm, [])) :=
  ⟨⟨by decide, by decide⟩, ⟨by decide, by decide⟩, ⟨by decide, by decide⟩,
   ⟨by decide, by decide⟩,
   fun s nm ha h => parseExpr_name_roundtrip s nm ha h⟩

/-- Witness for the amended C3: the Name `a.b` parsed from `"a.b"`
reparses from its canonical text to the same tree. -/
theorem c3_amended_roundtrip_witness :
    parseExpr (expr.toString (mkName (goStr "a.b"))) = .ok (mkName (goStr "a.b"), []) :=
  c3_amended_roundtrip.2.2.2.2 (goStr "a.b") (goStr "a.b") (by decide) (by decide)

